import Mathlib

/-!
Verification of the human-gated scheduled-task engine (the cron MCP server and
the per-channel channel lock) against its natural-language specification.

The development shallowly embeds the relevant source code:

* `src/mcp/cron.ts` — schedule normalization (`parseDuration`, `formatDuration`,
  `formatScheduleDescription`), the task registry and its lifecycle handlers
  (`schedule_task`, `activateTask`, `rejectTask`, `confirmCancellation`,
  `rejectCancellation`, `cancel_task`, `cancel_self`, the approval and
  cancellation timeouts, `startSchedule`, `executeTask`).
* `src/lib/channel-lock.ts` — the per-channel async mutex `acquireChannelLock`.

Pure functions become Lean functions on `List Char` / `Nat`; the stateful
registry becomes an explicit state type with one executable transition function
per event (each JavaScript handler runs atomically on the single-threaded event
loop, so a handler execution is one transition); the channel lock becomes a
small-step transition relation capturing the event-loop behaviour of the
while/await loop in `acquireChannelLock`.
-/

namespace Claw

/-! ## Schedule normalizer: `parseDuration` (cron.ts lines 54-71)

JavaScript `input.trim()` is embedded as dropping whitespace from both ends of
the character list; the regex `^(?:(\d+)h)?(?:(\d+)m)?(?:(\d+)s)?$/i` is
embedded as three optional digits-then-unit components that must consume the
whole string, with at least one component present. `parseInt` on a digit string
is exact `Nat` reading (JavaScript float imprecision above 2^53 is not
modelled). -/

/-- Embedding of JavaScript `String.prototype.trim` on a character list. -/
def trimChars (cs : List Char) : List Char :=
  ((cs.dropWhile Char.isWhitespace).reverse.dropWhile Char.isWhitespace).reverse

/-- Reading a decimal digit string most-significant-digit first (`parseInt`). -/
def digitsToNat (cs : List Char) : Nat :=
  cs.foldl (fun a c => a * 10 + (c.toNat - 48)) 0

/-- One optional component `(?:(\d+)u)?` of the duration regex: greedy digits
followed by the unit character (lower or upper case). On failure nothing is
consumed. -/
def component (lo hi : Char) (cs : List Char) : Option Nat × List Char :=
  let ds := cs.takeWhile Char.isDigit
  let rest := cs.dropWhile Char.isDigit
  match ds, rest with
  | [], _ => (none, cs)
  | _ :: _, c :: rest2 => if c = lo ∨ c = hi then (some (digitsToNat ds), rest2) else (none, cs)
  | _ :: _, [] => (none, cs)

/-- Embedding of `parseDuration` (cron.ts lines 54-71): raw milliseconds, or
the compact grammar `"5m"`, `"2h"`, `"1h30m"`, `"90s"`; `none` when
unparseable (JavaScript `null`). -/
def parseDuration (input : String) : Option Nat :=
  let cs := trimChars input.toList
  if cs ≠ [] ∧ cs.all Char.isDigit then
    some (digitsToNat cs)
  else
    let (h, cs1) := component 'h' 'H' cs
    let (m, cs2) := component 'm' 'M' cs1
    let (s, cs3) := component 's' 'S' cs2
    if cs3 = [] ∧ (h.isSome ∨ m.isSome ∨ s.isSome) then
      some ((h.getD 0) * 3600000 + (m.getD 0) * 60000 + (s.getD 0) * 1000)
    else
      none

/-! ## `formatDuration` (cron.ts lines 76-91) -/

/-- JavaScript `Math.round (num / den)` for non-negative arguments:
`⌊num / den + 1 / 2⌋`. -/
def jsRound (num den : Nat) : Nat := (2 * num + den) / (2 * den)

/-- Decimal digit to character. -/
def digitChar (d : Nat) : Char :=
  match d with
  | 0 => '0' | 1 => '1' | 2 => '2' | 3 => '3' | 4 => '4'
  | 5 => '5' | 6 => '6' | 7 => '7' | 8 => '8' | _ => '9'

/-- Decimal digits of `n`, least significant first; the first argument is
structural fuel (any fuel `≥ n` gives the digits of `n`). -/
def natDigitsRev : Nat → Nat → List Nat
  | 0, _ => []
  | _ + 1, 0 => []
  | fuel + 1, n + 1 => (n + 1) % 10 :: natDigitsRev fuel ((n + 1) / 10)

/-- Embedding of JavaScript number-to-string for non-negative integers
(template literals like `` `${h} hours` ``). -/
def natRepr (n : Nat) : String :=
  if n = 0 then "0" else String.mk (((natDigitsRev n n).map digitChar).reverse)

/-- Embedding of `formatDuration` (cron.ts lines 76-91).  The JavaScript
floating comparison `h === Math.floor(h)` for `h = ms / 3600000` is embedded
as `ms % 3600000 = 0`; the source's local consts (`h`, `hours`, `mins`, `m`,
`s`) are inlined. -/
def formatDuration (ms : Nat) : String :=
  if 3600000 ≤ ms then
    if ms % 3600000 = 0 then
      natRepr (ms / 3600000) ++ " hour" ++ (if ms / 3600000 = 1 then "" else "s")
    else
      if 0 < jsRound (ms - ms / 3600000 * 3600000) 60000 then
        natRepr (ms / 3600000) ++ "h"
          ++ natRepr (jsRound (ms - ms / 3600000 * 3600000) 60000) ++ "m"
      else
        natRepr (ms / 3600000) ++ " hour" ++ (if ms / 3600000 = 1 then "" else "s")
  else if 60000 ≤ ms then
    natRepr (jsRound ms 60000) ++ " minute" ++ (if jsRound ms 60000 = 1 then "" else "s")
  else
    natRepr (jsRound ms 1000) ++ " second" ++ (if jsRound ms 1000 = 1 then "" else "s")

/-- Embedding of `formatScheduleDescription` (cron.ts lines 162-198) for the
`interval` and `cron` branches.  The JavaScript falsy test `if (!ms)` is true
both for `null` and for `0`.  The `once` branch renders Pacific-time calendar
phrases through `Date`/`Intl`; that rendering is wall-clock presentation not
exercised by any claim and is represented by its input. -/
def formatScheduleDescription (scheduleType : String) (scheduleValue : String) : String :=
  if scheduleType = "interval" then
    match parseDuration scheduleValue with
    | none => "interval " ++ scheduleValue
    | some ms => if ms = 0 then "interval " ++ scheduleValue else "every " ++ formatDuration ms
  else if scheduleType = "once" then
    "once at " ++ scheduleValue
  else
    "cron `" ++ scheduleValue ++ "`"

/-! ## Denotation of duration descriptions

The spec's round-trip property says the human-readable description of a
normalized interval must be "consistent with the original intent".  The
following function gives the duration a description produced by
`formatDuration` denotes, following the spec's reading of the phrases
(`"N hours"`, `"N minutes"`, `"N seconds"`, `"XhYm"`). -/

/-- Read a leading run of decimal digits. -/
def readDigits (cs : List Char) : Option (Nat × List Char) :=
  let ds := cs.takeWhile Char.isDigit
  if ds = [] then none else some (digitsToNat ds, cs.dropWhile Char.isDigit)

/-- Denotation of the text following the leading number of a duration
description: phrase forms `" hour(s)"`, `" minute(s)"`, `" second(s)"`, or the
compact form `hYm`. -/
def readDurationAux (n : Nat) (rest : List Char) : Option Nat :=
  if rest = " hour".toList ∨ rest = " hours".toList then some (n * 3600000)
  else if rest = " minute".toList ∨ rest = " minutes".toList then some (n * 60000)
  else if rest = " second".toList ∨ rest = " seconds".toList then some (n * 1000)
  else
    if rest.head? = some 'h' then
      match readDigits rest.tail with
      | some q => if q.2 = ['m'] then some (n * 3600000 + q.1 * 60000) else none
      | none => none
    else none

/-- Milliseconds denoted by a duration description, per the spec's phrase
forms. Returns `none` for unrecognized text. -/
def readDuration (s : String) : Option Nat :=
  match readDigits s.toList with
  | none => none
  | some p => readDurationAux p.1 p.2

/-! ## Lemmas about digit printing and parsing -/

/-- Value of a least-significant-first digit list. -/
def dval10 : List Nat → Nat
  | [] => 0
  | d :: t => d + 10 * dval10 t

theorem natDigitsRev_sound : ∀ fuel n, n ≤ fuel → dval10 (natDigitsRev fuel n) = n := by
  intro fuel
  induction fuel with
  | zero =>
    intro n h
    have : n = 0 := Nat.le_zero.mp h
    subst this; rfl
  | succ f ih =>
    intro n h
    cases n with
    | zero => rfl
    | succ m =>
      have h2 : (m + 1) / 10 ≤ f := by
        have := Nat.div_lt_self (Nat.succ_pos m) (by norm_num : 1 < 10)
        omega
      show dval10 ((m + 1) % 10 :: natDigitsRev f ((m + 1) / 10)) = m + 1
      simp only [dval10, ih _ h2]
      omega

theorem natDigitsRev_lt10 : ∀ fuel n d, d ∈ natDigitsRev fuel n → d < 10 := by
  intro fuel
  induction fuel with
  | zero => intro n d h; simp [natDigitsRev] at h
  | succ f ih =>
    intro n d h
    cases n with
    | zero => simp [natDigitsRev] at h
    | succ m =>
      rcases List.mem_cons.mp h with h1 | h1
      · subst h1; exact Nat.mod_lt _ (by norm_num)
      · exact ih _ _ h1

theorem natDigitsRev_ne_nil {fuel n : Nat} (h0 : 0 < n) (hf : n ≤ fuel) :
    natDigitsRev fuel n ≠ [] := by
  cases fuel with
  | zero => omega
  | succ f =>
    cases n with
    | zero => omega
    | succ m => simp [natDigitsRev]

theorem digitChar_spec (d : Nat) (h : d < 10) :
    (digitChar d).isDigit = true ∧ (digitChar d).toNat = 48 + d ∧
      (digitChar d).isWhitespace = false := by
  interval_cases d <;> refine ⟨by decide, by decide, by decide⟩

theorem foldl_digits (ds : List Nat) : ∀ a : Nat, (∀ d ∈ ds, d < 10) →
    List.foldl (fun a c => a * 10 + (c.toNat - 48)) a ((ds.map digitChar).reverse)
      = a * 10 ^ ds.length + dval10 ds := by
  induction ds with
  | nil => intro a _; simp [dval10]
  | cons d t ih =>
    intro a h
    have hd : d < 10 := h d (List.mem_cons_self ..)
    have ht : ∀ x ∈ t, x < 10 := fun x hx => h x (List.mem_cons_of_mem _ hx)
    have hchar := (digitChar_spec d hd).2.1
    simp only [List.map_cons, List.reverse_cons, List.foldl_append, ih a ht,
      List.foldl_cons, List.foldl_nil, dval10, List.length_cons]
    rw [hchar, Nat.add_sub_cancel_left, pow_succ]
    ring

theorem natRepr_toList_spec (n : Nat) :
    (natRepr n).toList ≠ [] ∧
      (∀ c ∈ (natRepr n).toList, c.isDigit = true ∧ c.isWhitespace = false) ∧
      digitsToNat ((natRepr n).toList) = n := by
  by_cases h0 : n = 0
  · subst h0
    have h1 : (natRepr 0).toList = ['0'] := rfl
    rw [h1]
    refine ⟨by decide, ?_, by decide⟩
    intro c hc
    have : c = '0' := by simpa using hc
    subst this; exact ⟨by decide, by decide⟩
  · have h1 : (natRepr n).toList = ((natDigitsRev n n).map digitChar).reverse := by
      rw [natRepr, if_neg h0]; rfl
    rw [h1]
    refine ⟨?_, ?_, ?_⟩
    · simp only [ne_eq, List.reverse_eq_nil_iff, List.map_eq_nil_iff]
      exact natDigitsRev_ne_nil (Nat.pos_of_ne_zero h0) (Nat.le_refl n)
    · intro c hc
      rw [List.mem_reverse, List.mem_map] at hc
      obtain ⟨d, hd, hdc⟩ := hc
      have := digitChar_spec d (natDigitsRev_lt10 n n d hd)
      exact hdc ▸ ⟨this.1, this.2.2⟩
    · show List.foldl _ 0 _ = n
      rw [foldl_digits _ 0 (fun d hd => natDigitsRev_lt10 n n d hd),
        natDigitsRev_sound n n (Nat.le_refl n)]
      simp

theorem dropWhile_eq_self_of_neg {α : Type} {p : α → Bool} {l : List α}
    (h : ∀ a ∈ l, p a = false) : l.dropWhile p = l := by
  cases l with
  | nil => rfl
  | cons a t => simp [List.dropWhile_cons, h a (List.mem_cons_self ..)]

theorem trimChars_eq_self {cs : List Char} (h : ∀ c ∈ cs, c.isWhitespace = false) :
    trimChars cs = cs := by
  unfold trimChars
  rw [dropWhile_eq_self_of_neg h,
    dropWhile_eq_self_of_neg (fun c hc => h c (List.mem_reverse.mp hc)),
    List.reverse_reverse]

theorem parseDuration_natRepr (n : Nat) : parseDuration (natRepr n) = some n := by
  obtain ⟨hne, hprops, hval⟩ := natRepr_toList_spec n
  have htrim : trimChars (natRepr n).toList = (natRepr n).toList :=
    trimChars_eq_self (fun c hc => (hprops c hc).2)
  have hall : (natRepr n).toList.all Char.isDigit = true :=
    List.all_eq_true.mpr (fun c hc => (hprops c hc).1)
  rw [parseDuration]
  simp only [htrim]
  rw [if_pos ⟨hne, hall⟩, hval]

theorem takeWhile_append_pos {α : Type} {p : α → Bool} {xs ys : List α}
    (h : ∀ a ∈ xs, p a = true) : (xs ++ ys).takeWhile p = xs ++ ys.takeWhile p := by
  induction xs with
  | nil => simp
  | cons a t ih =>
    have ha := h a (List.mem_cons_self ..)
    simp [List.takeWhile_cons, ha, ih (fun x hx => h x (List.mem_cons_of_mem _ hx))]

theorem dropWhile_append_pos {α : Type} {p : α → Bool} {xs ys : List α}
    (h : ∀ a ∈ xs, p a = true) : (xs ++ ys).dropWhile p = ys.dropWhile p := by
  induction xs with
  | nil => simp
  | cons a t ih =>
    have ha := h a (List.mem_cons_self ..)
    simp [List.dropWhile_cons, ha, ih (fun x hx => h x (List.mem_cons_of_mem _ hx))]

/-- Reading digits from a digit block followed by a non-digit remainder. -/
theorem readDigits_append {ds rest : List Char} (hds : ∀ c ∈ ds, c.isDigit = true)
    (hne : ds ≠ [])
    (hr : rest = [] ∨ ∃ c t, rest = c :: t ∧ c.isDigit = false) :
    readDigits (ds ++ rest) = some (digitsToNat ds, rest) := by
  have htake : rest.takeWhile Char.isDigit = [] := by
    rcases hr with h | ⟨c, t, hct, hc⟩
    · simp [h]
    · simp [hct, List.takeWhile_cons, hc]
  have hdrop : rest.dropWhile Char.isDigit = rest := by
    rcases hr with h | ⟨c, t, hct, hc⟩
    · simp [h]
    · rw [hct]; simp [List.dropWhile_cons, hc]
  rw [readDigits]
  simp only [takeWhile_append_pos hds, dropWhile_append_pos hds, htake, hdrop,
    List.append_nil]
  rw [if_neg hne]

theorem cons_ne_of_head {a b : Char} {xs ys : List Char} (h : a ≠ b) :
    (a :: xs) ≠ (b :: ys) := by
  intro he; injection he with h1 _; exact h h1

theorem toList_append (s t : String) : (s ++ t).toList = s.toList ++ t.toList :=
  String.data_append s t

theorem jsRound_mul (k den : Nat) (hden : 0 < den) : jsRound (k * den) den = k := by
  unfold jsRound
  have h1 : 2 * (k * den) + den = den + 2 * den * k := by ring
  rw [h1, Nat.add_mul_div_left _ _ (by omega : 0 < 2 * den),
    Nat.div_eq_of_lt (by omega : den < 2 * den)]
  omega

theorem readDuration_eq {s : String} {n : Nat} {rest : List Char}
    (h : readDigits s.toList = some (n, rest)) :
    readDuration s = readDurationAux n rest := by
  unfold readDuration
  rw [h]

theorem readDuration_hour (n : Nat) :
    readDuration (natRepr n ++ " hour") = some (n * 3600000) := by
  obtain ⟨hne, hprops, hval⟩ := natRepr_toList_spec n
  have hread : readDigits ((natRepr n ++ " hour").toList) = some (n, " hour".toList) := by
    rw [toList_append, show (" hour".toList : List Char) = ' ' :: ['h', 'o', 'u', 'r'] from rfl,
      readDigits_append (fun c hc => (hprops c hc).1) hne
        (Or.inr ⟨' ', ['h', 'o', 'u', 'r'], rfl, by decide⟩), hval]
  rw [readDuration_eq hread, readDurationAux, if_pos (Or.inl rfl)]

theorem readDuration_hours (n : Nat) :
    readDuration (natRepr n ++ " hours") = some (n * 3600000) := by
  obtain ⟨hne, hprops, hval⟩ := natRepr_toList_spec n
  have hread : readDigits ((natRepr n ++ " hours").toList) = some (n, " hours".toList) := by
    rw [toList_append,
      show (" hours".toList : List Char) = ' ' :: ['h', 'o', 'u', 'r', 's'] from rfl,
      readDigits_append (fun c hc => (hprops c hc).1) hne
        (Or.inr ⟨' ', ['h', 'o', 'u', 'r', 's'], rfl, by decide⟩), hval]
  rw [readDuration_eq hread, readDurationAux, if_pos (Or.inr rfl)]

theorem readDuration_minute (n : Nat) :
    readDuration (natRepr n ++ " minute") = some (n * 60000) := by
  obtain ⟨hne, hprops, hval⟩ := natRepr_toList_spec n
  have hread : readDigits ((natRepr n ++ " minute").toList) = some (n, " minute".toList) := by
    rw [toList_append,
      show (" minute".toList : List Char) = ' ' :: ['m', 'i', 'n', 'u', 't', 'e'] from rfl,
      readDigits_append (fun c hc => (hprops c hc).1) hne
        (Or.inr ⟨' ', ['m', 'i', 'n', 'u', 't', 'e'], rfl, by decide⟩), hval]
  have h1 : ¬(" minute".toList = " hour".toList ∨ " minute".toList = " hours".toList) := by
    decide
  rw [readDuration_eq hread, readDurationAux, if_neg h1, if_pos (Or.inl rfl)]

theorem readDuration_minutes (n : Nat) :
    readDuration (natRepr n ++ " minutes") = some (n * 60000) := by
  obtain ⟨hne, hprops, hval⟩ := natRepr_toList_spec n
  have hread : readDigits ((natRepr n ++ " minutes").toList) = some (n, " minutes".toList) := by
    rw [toList_append,
      show (" minutes".toList : List Char) = ' ' :: ['m', 'i', 'n', 'u', 't', 'e', 's'] from rfl,
      readDigits_append (fun c hc => (hprops c hc).1) hne
        (Or.inr ⟨' ', ['m', 'i', 'n', 'u', 't', 'e', 's'], rfl, by decide⟩), hval]
  have h1 : ¬(" minutes".toList = " hour".toList ∨ " minutes".toList = " hours".toList) := by
    decide
  rw [readDuration_eq hread, readDurationAux, if_neg h1, if_pos (Or.inr rfl)]

theorem readDuration_hm (n m : Nat) :
    readDuration (natRepr n ++ "h" ++ natRepr m ++ "m") = some (n * 3600000 + m * 60000) := by
  obtain ⟨hne, hprops, hval⟩ := natRepr_toList_spec n
  obtain ⟨hne2, hprops2, hval2⟩ := natRepr_toList_spec m
  have hlist : (natRepr n ++ "h" ++ natRepr m ++ "m").toList
      = (natRepr n).toList ++ ('h' :: ((natRepr m).toList ++ ['m'])) := by
    simp only [toList_append, List.append_assoc]
    rfl
  have hread : readDigits ((natRepr n ++ "h" ++ natRepr m ++ "m").toList)
      = some (n, 'h' :: ((natRepr m).toList ++ ['m'])) := by
    rw [hlist,
      readDigits_append (fun c hc => (hprops c hc).1) hne
        (Or.inr ⟨'h', (natRepr m).toList ++ ['m'], rfl, by decide⟩), hval]
  have hread2 : readDigits ((natRepr m).toList ++ ['m']) = some (m, ['m']) := by
    rw [readDigits_append (fun c hc => (hprops2 c hc).1) hne2
      (Or.inr ⟨'m', [], rfl, by decide⟩), hval2]
  have hif1 : ¬('h' :: ((natRepr m).toList ++ ['m']) = " hour".toList ∨
      'h' :: ((natRepr m).toList ++ ['m']) = " hours".toList) := by
    rintro (he | he) <;> exact cons_ne_of_head (by decide) he
  have hif2 : ¬('h' :: ((natRepr m).toList ++ ['m']) = " minute".toList ∨
      'h' :: ((natRepr m).toList ++ ['m']) = " minutes".toList) := by
    rintro (he | he) <;> exact cons_ne_of_head (by decide) he
  have hif3 : ¬('h' :: ((natRepr m).toList ++ ['m']) = " second".toList ∨
      'h' :: ((natRepr m).toList ++ ['m']) = " seconds".toList) := by
    rintro (he | he) <;> exact cons_ne_of_head (by decide) he
  rw [readDuration_eq hread, readDurationAux, if_neg hif1, if_neg hif2, if_neg hif3,
    List.head?_cons, List.tail_cons, if_pos rfl, hread2]
  rfl

/-- Round-trip of `formatDuration` for whole-minute values: the description
denotes exactly its input. -/
theorem readDuration_formatDuration {ms : Nat} (h60 : 60000 ≤ ms) (hmod : ms % 60000 = 0) :
    readDuration (formatDuration ms) = some ms := by
  have hdm := Nat.div_add_mod ms 3600000
  by_cases hhr : 3600000 ≤ ms
  · by_cases hex : ms % 3600000 = 0
    · have hmul : ms / 3600000 * 3600000 = ms :=
        Nat.div_mul_cancel (Nat.dvd_of_mod_eq_zero hex)
      rw [formatDuration, if_pos hhr, if_pos hex]
      by_cases h1 : ms / 3600000 = 1
      · rw [if_pos h1, String.append_empty, readDuration_hour, hmul]
      · rw [if_neg h1]
        have : natRepr (ms / 3600000) ++ " hour" ++ "s"
            = natRepr (ms / 3600000) ++ " hours" := by
          rw [String.append_assoc]; rfl
        rw [this, readDuration_hours, hmul]
    · -- fractional hours: mins = (ms % 3600000) / 60000, exact by whole-minute input
      have hrem : ms - ms / 3600000 * 3600000 = ms % 3600000 := by omega
      have hdvd : (60000 : Nat) ∣ ms % 3600000 := by
        have hd1 : (60000 : Nat) ∣ ms := Nat.dvd_of_mod_eq_zero hmod
        have hd2 : (60000 : Nat) ∣ ms / 3600000 * 3600000 :=
          Dvd.dvd.mul_left (by norm_num : (60000 : Nat) ∣ 3600000) _
        rw [← hrem]
        exact Nat.dvd_sub' hd1 hd2
      obtain ⟨k, hk⟩ := hdvd
      have hk0 : 0 < k := by
        rcases Nat.eq_zero_or_pos k with h | h
        · exfalso; apply hex; rw [hk, h, Nat.mul_zero]
        · exact h
      have hjs : jsRound (ms - ms / 3600000 * 3600000) 60000 = k := by
        rw [hrem, hk, Nat.mul_comm, jsRound_mul k 60000 (by norm_num)]
      rw [formatDuration, if_pos hhr, if_neg hex]
      rw [hjs, if_pos hk0, readDuration_hm]
      congr 1
      have : ms % 3600000 = 60000 * k := hk
      omega
  · -- sub-hour: m = ms / 60000, exact
    have hlt : ms < 3600000 := by omega
    have hmul : ms / 60000 * 60000 = ms :=
      Nat.div_mul_cancel (Nat.dvd_of_mod_eq_zero hmod)
    have hjs : jsRound ms 60000 = ms / 60000 := by
      conv_lhs => rw [← hmul]
      rw [jsRound_mul _ 60000 (by norm_num)]
    rw [formatDuration, if_neg hhr, if_pos h60, hjs]
    by_cases h1 : ms / 60000 = 1
    · rw [if_pos h1, String.append_empty, readDuration_minute, hmul]
    · rw [if_neg h1]
      have : natRepr (ms / 60000) ++ " minute" ++ "s"
          = natRepr (ms / 60000) ++ " minutes" := by
        rw [String.append_assoc]; rfl
      rw [this, readDuration_minutes, hmul]

/-- C9 counterexample: `"90s"` is a valid interval input (explicitly in the
accepted duration grammar, and its value 90000 ms meets the 60000 ms minimum),
but the human-readable description derived from the normalized value is
"every 2 minutes", which denotes 120000 ms, not the original 90000 ms — the
sub-hour branch of `formatDuration` rounds to the nearest whole minute, so the
description is not consistent with the original input. -/
theorem C9_counterexample :
    parseDuration "90s" = some 90000 ∧ 60000 ≤ 90000 ∧
      formatScheduleDescription "interval" (natRepr 90000) = "every 2 minutes" ∧
      readDuration "2 minutes" = some 120000 ∧ 90000 ≠ 120000 :=
  ⟨by decide, by decide, by decide, by decide, by decide⟩

/-- C9 (amended): for every valid interval input whose normalized value is a
whole number of minutes, the description derived from the normalized
millisecond value is consistent with the input — it renders as
`"every " ++ formatDuration ms` and the rendered duration denotes exactly
`ms`; in particular `parseDuration "5m" = 300000` and
`formatScheduleDescription 'interval' "300000" = "every 5 minutes"`.  (For
values that are not a whole number of minutes, such as `"90s"`,
`formatDuration` rounds to the nearest minute and the round trip fails.) -/
theorem C9_roundtrip_amended :
    (∀ (input : String) (ms : Nat), parseDuration input = some ms → 60000 ≤ ms →
        ms % 60000 = 0 →
        formatScheduleDescription "interval" (natRepr ms) = "every " ++ formatDuration ms ∧
          readDuration (formatDuration ms) = some ms) ∧
      parseDuration "5m" = some 300000 ∧
      formatScheduleDescription "interval" "300000" = "every 5 minutes" := by
  refine ⟨?_, by decide, by decide⟩
  intro input ms hparse h60 hmod
  refine ⟨?_, readDuration_formatDuration h60 hmod⟩
  rw [formatScheduleDescription, if_pos rfl, parseDuration_natRepr ms]
  show (if ms = 0 then "interval " ++ natRepr ms else "every " ++ formatDuration ms)
      = "every " ++ formatDuration ms
  rw [if_neg (by omega : ¬(ms = 0))]

/-- Witness for the amended C9 round-trip theorem at the concrete input
`"5m"` (normalized value 300000 ms). -/
theorem C9_roundtrip_witness :
    parseDuration "5m" = some 300000 ∧ 60000 ≤ 300000 ∧ 300000 % 60000 = 0 ∧
      (formatScheduleDescription "interval" (natRepr 300000)
          = "every " ++ formatDuration 300000 ∧
        readDuration (formatDuration 300000) = some 300000) :=
  ⟨by decide, by decide, by decide,
    C9_roundtrip_amended.1 "5m" 300000 (by decide) (by decide) (by decide)⟩

/-! ## The per-channel async mutex (src/lib/channel-lock.ts)

`acquireChannelLock` keeps a module-level `Map` from channel id to the promise
of the current holder.  A caller loops `while (locks.has(ch)) await
locks.get(ch)`, then installs its own promise and returns a release closure
that deletes the map entry and resolves the promise.

The embedding is a small-step transition system over the clients of one
channel (channels have disjoint state in the map, so one channel captures the
per-channel behaviour).  Clients are numbers; promises are numbered by a fresh
counter.  JavaScript event-loop semantics:

* The body of `acquireChannelLock` up to its first `await` (or its return) is
  synchronous: the `has` check and the `set` happen in one step
  (`tryAcquire`).
* Awaiting the current promise attaches the caller to that promise's
  continuation list in attach order.
* Resolving a promise (the release closure) enqueues all of its attached
  continuations, in attach order, as microtasks; each woken waiter re-runs the
  `while` check (`wake`).
* Calls to `acquireChannelLock` and to the release closure happen in macrotask
  context (Slack event handlers, timer callbacks, and continuations of the
  long-running agent invocation), hence only when the microtask queue has
  drained (`micro = []` in `start` and `finish`).

A client is `holding` from the moment its `tryAcquire` succeeds until its
release runs; the Agent Runtime invocation (`query()` in `executeTask` and in
the interactive host) happens strictly inside that window. -/

/-- Phase of one client of the channel lock. -/
inductive CPhase
  | idle
  | waiting (p : Nat)
  | holding (p : Nat)
  | done
deriving DecidableEq

/-- State of one channel of the lock system, plus bookkeeping of arrival and
grant order (`arrived`, `granted` are histories used to state fairness). -/
structure LockState where
  lock : Option Nat
  waiters : Nat → List Nat
  micro : List Nat
  phase : Nat → CPhase
  fresh : Nat
  arrived : List Nat
  granted : List Nat

/-- Initial state: empty map, no clients started. -/
def lockInit : LockState :=
  { lock := none, waiters := fun _ => [], micro := [], phase := fun _ => .idle,
    fresh := 0, arrived := [], granted := [] }

/-- The synchronous body of `acquireChannelLock`: if no promise is in the map
the caller installs a fresh promise and returns (it now holds the lock);
otherwise it awaits the mapped promise (attaching in arrival order). -/
def tryAcquire (c : Nat) (s : LockState) : LockState :=
  match s.lock with
  | none =>
      { s with lock := some s.fresh,
               phase := Function.update s.phase c (.holding s.fresh),
               fresh := s.fresh + 1,
               granted := s.granted ++ [c] }
  | some p =>
      { s with waiters := Function.update s.waiters p (s.waiters p ++ [c]),
               phase := Function.update s.phase c (.waiting p) }

/-- Event-loop steps of the channel lock. -/
inductive LockStep : LockState → LockState → Prop
  | start (c : Nat) (s : LockState) (hidle : s.phase c = .idle) (hm : s.micro = []) :
      LockStep s (tryAcquire c { s with arrived := s.arrived ++ [c] })
  | wake (c : Nat) (rest : List Nat) (s : LockState) (hm : s.micro = c :: rest) :
      LockStep s (tryAcquire c { s with micro := rest })
  | finish (c p : Nat) (s : LockState) (hph : s.phase c = .holding p) (hm : s.micro = []) :
      LockStep s { s with lock := none,
                          micro := s.waiters p,
                          waiters := Function.update s.waiters p [],
                          phase := Function.update s.phase c .done }

/-- Reachability of lock states from the initial state. -/
def LockReach (s : LockState) : Prop := Relation.ReflTransGen LockStep lockInit s

/-- Waiters attached to the channel's current promise (empty when the map has
no entry for the channel). -/
def wcur (lk : Option Nat) (w : Nat → List Nat) : List Nat :=
  match lk with
  | some p => w p
  | none => []

/-- Pending service queue of the channel: waiters attached to the current
promise, then microtask retries (clients woken by the last resolve). -/
def lockQueue (s : LockState) : List Nat :=
  wcur s.lock s.waiters ++ s.micro

/-- Inductive invariant of the lock system. -/
def LockInv (s : LockState) : Prop :=
  (∀ c p, s.phase c = .holding p → s.lock = some p) ∧
  (∀ c1 c2 p1 p2, s.phase c1 = .holding p1 → s.phase c2 = .holding p2 → c1 = c2) ∧
  s.arrived = s.granted ++ lockQueue s ∧
  (∀ p, s.fresh ≤ p → s.waiters p = []) ∧
  (∀ p, s.lock = some p → p < s.fresh)

theorem lockInv_init : LockInv lockInit := by
  refine ⟨?_, ?_, ?_, ?_, ?_⟩ <;> simp [lockInit, lockQueue, wcur]

/-- The invariant survives one execution of the synchronous body of
`acquireChannelLock` by client `c`, given the invariant of the pre-state with
`c` standing at the end of the attached waiters (as arranged by `start` and
`wake`). -/
theorem lockInv_tryAcquire (c : Nat) (lk : Option Nat) (w : Nat → List Nat)
    (mi : List Nat) (ph : Nat → CPhase) (fr : Nat) (ar gr : List Nat)
    (hA : ∀ c' p, ph c' = .holding p → lk = some p)
    (hB : ∀ c1 c2 p1 p2, ph c1 = .holding p1 → ph c2 = .holding p2 → c1 = c2)
    (hC : ar = gr ++ (wcur lk w ++ [c]) ++ mi)
    (hD : ∀ p, fr ≤ p → w p = [])
    (hE : ∀ p, lk = some p → p < fr) :
    LockInv (tryAcquire c ⟨lk, w, mi, ph, fr, ar, gr⟩) := by
  cases lk with
  | none =>
    show LockInv ⟨some fr, w, mi, Function.update ph c (.holding fr), fr + 1, ar, gr ++ [c]⟩
    refine ⟨?_, ?_, ?_, ?_, ?_⟩
    · intro c' p' hp'
      show (some fr : Option Nat) = some p'
      by_cases hc : c' = c
      · subst hc
        have hp2 : Function.update ph c' (CPhase.holding fr) c' = .holding p' := hp'
        rw [Function.update_same] at hp2
        cases hp2
        rfl
      · have hp2 : Function.update ph c (CPhase.holding fr) c' = .holding p' := hp'
        rw [Function.update_noteq hc] at hp2
        cases hA c' p' hp2
    · intro c1 c2 p1 p2 h1 h2
      by_cases hc1 : c1 = c <;> by_cases hc2 : c2 = c
      · rw [hc1, hc2]
      · have h2' : Function.update ph c (CPhase.holding fr) c2 = .holding p2 := h2
        rw [Function.update_noteq hc2] at h2'
        cases hA c2 p2 h2'
      · have h1' : Function.update ph c (CPhase.holding fr) c1 = .holding p1 := h1
        rw [Function.update_noteq hc1] at h1'
        cases hA c1 p1 h1'
      · have h1' : Function.update ph c (CPhase.holding fr) c1 = .holding p1 := h1
        rw [Function.update_noteq hc1] at h1'
        cases hA c1 p1 h1'
    · show ar = (gr ++ [c]) ++ lockQueue _
      rw [lockQueue]
      show ar = (gr ++ [c]) ++ (wcur (some fr) w ++ mi)
      rw [show wcur (some fr) w = w fr from rfl, hD fr (Nat.le_refl fr)]
      rw [hC, show wcur none w = [] from rfl]
      simp [List.append_assoc]
    · intro p hp
      have hp2 : fr + 1 ≤ p := hp
      show w p = []
      exact hD p (by omega)
    · intro p hp
      have hp2 : some fr = some p := hp
      show p < fr + 1
      injection hp2 with h3
      omega
  | some p0 =>
    show LockInv ⟨some p0, Function.update w p0 (w p0 ++ [c]), mi,
      Function.update ph c (.waiting p0), fr, ar, gr⟩
    refine ⟨?_, ?_, ?_, ?_, ?_⟩
    · intro c' p' hp'
      by_cases hc : c' = c
      · subst hc
        have hp2 : Function.update ph c' (CPhase.waiting p0) c' = .holding p' := hp'
        rw [Function.update_same] at hp2
        cases hp2
      · have hp2 : Function.update ph c (CPhase.waiting p0) c' = .holding p' := hp'
        rw [Function.update_noteq hc] at hp2
        exact hA c' p' hp2
    · intro c1 c2 p1 p2 h1 h2
      by_cases hc1 : c1 = c
      · subst hc1
        have h1' : Function.update ph c1 (CPhase.waiting p0) c1 = .holding p1 := h1
        rw [Function.update_same] at h1'
        cases h1'
      · by_cases hc2 : c2 = c
        · subst hc2
          have h2' : Function.update ph c2 (CPhase.waiting p0) c2 = .holding p2 := h2
          rw [Function.update_same] at h2'
          cases h2'
        · have h1' : Function.update ph c (CPhase.waiting p0) c1 = .holding p1 := h1
          rw [Function.update_noteq hc1] at h1'
          have h2' : Function.update ph c (CPhase.waiting p0) c2 = .holding p2 := h2
          rw [Function.update_noteq hc2] at h2'
          exact hB c1 c2 p1 p2 h1' h2'
    · show ar = gr ++ lockQueue _
      rw [lockQueue]
      show ar = gr ++ (wcur (some p0) (Function.update w p0 (w p0 ++ [c])) ++ mi)
      rw [show wcur (some p0) (Function.update w p0 (w p0 ++ [c]))
          = Function.update w p0 (w p0 ++ [c]) p0 from rfl, Function.update_same]
      rw [hC, show wcur (some p0) w = w p0 from rfl]
      simp [List.append_assoc]
    · intro p hp
      have hp2 : fr ≤ p := hp
      have hne : p ≠ p0 := by
        intro h; subst h
        exact absurd (hE p rfl) (by omega)
      show Function.update w p0 (w p0 ++ [c]) p = []
      rw [Function.update_noteq hne]
      exact hD p hp2
    · intro p hp
      have hp2 : some p0 = some p := hp
      show p < fr
      injection hp2 with h3
      subst h3
      exact hE _ rfl

theorem lockInv_step {s s' : LockState} (hinv : LockInv s) (hstep : LockStep s s') :
    LockInv s' := by
  obtain ⟨hA, hB, hC, hC', hD⟩ := hinv
  cases hstep with
  | start c s hidle hm =>
    obtain ⟨lk, w, mi, ph, fr, ar, gr⟩ := s
    simp only at hidle hm
    subst hm
    refine lockInv_tryAcquire c lk w [] ph fr (ar ++ [c]) gr hA hB ?_ hC' hD
    rw [lockQueue] at hC
    simp only at hC
    rw [show wcur lk w ++ ([] : List Nat) = wcur lk w from List.append_nil _] at hC
    rw [hC]
    simp [List.append_assoc]
  | wake c rest s hm =>
    obtain ⟨lk, w, mi, ph, fr, ar, gr⟩ := s
    simp only at hm
    subst hm
    refine lockInv_tryAcquire c lk w rest ph fr ar gr hA hB ?_ hC' hD
    rw [lockQueue] at hC
    simp only at hC
    rw [hC]
    simp [List.append_assoc]
  | finish c p s hph hm =>
    obtain ⟨lk, w, mi, ph, fr, ar, gr⟩ := s
    simp only at hph hm
    have hl : lk = some p := hA c p hph
    subst hl hm
    refine ⟨?_, ?_, ?_, ?_, ?_⟩
    · intro c' p' hp'
      by_cases hc : c' = c
      · subst hc
        have hp2 : Function.update ph c' CPhase.done c' = .holding p' := hp'
        rw [Function.update_same] at hp2
        cases hp2
      · have hp2 : Function.update ph c CPhase.done c' = .holding p' := hp'
        rw [Function.update_noteq hc] at hp2
        exact absurd (hB c' c p' p hp2 hph) hc
    · intro c1 c2 p1 p2 h1 h2
      by_cases hc1 : c1 = c
      · by_cases hc2 : c2 = c
        · rw [hc1, hc2]
        · have h2' : Function.update ph c CPhase.done c2 = .holding p2 := h2
          rw [Function.update_noteq hc2] at h2'
          exact absurd (hB c2 c p2 p h2' hph) hc2
      · have h1' : Function.update ph c CPhase.done c1 = .holding p1 := h1
        rw [Function.update_noteq hc1] at h1'
        exact absurd (hB c1 c p1 p h1' hph) hc1
    · show ar = gr ++ lockQueue _
      rw [lockQueue]
      show ar = gr ++ (wcur none (Function.update w p []) ++ w p)
      rw [show wcur none (Function.update w p []) = [] from rfl, List.nil_append]
      rw [lockQueue] at hC
      simp only at hC
      rw [show wcur (some p) w = w p from rfl, List.append_nil] at hC
      exact hC
    · intro q hq
      have hq2 : fr ≤ q := hq
      show Function.update w p [] q = []
      by_cases hqp : q = p
      · subst hqp; rw [Function.update_same]
      · rw [Function.update_noteq hqp]
        exact hC' q hq2
    · intro q hq
      have hq2 : (none : Option Nat) = some q := hq
      cases hq2

theorem lockInv_reach {s : LockState} (h : LockReach s) : LockInv s := by
  induction h with
  | refl => exact lockInv_init
  | tail _ hstep ih => exact lockInv_step ih hstep

/-- C2: in every reachable state of the channel lock, (1) at most one client
holds the lock — a client is `holding` exactly between the return of
`acquireChannelLock` and its release call, the window in which `executeTask`
and the interactive host invoke the Agent Runtime, so any two Agent Runtime
invocations on the channel are strictly serialized, never concurrent — and
(2) the grant history is a prefix of the arrival history, so waiters are
served in arrival order. -/
theorem C2_channel_lock_mutex_fifo (s : LockState) (h : LockReach s) :
    (∀ c1 c2 p1 p2, s.phase c1 = .holding p1 → s.phase c2 = .holding p2 → c1 = c2) ∧
      ∃ rest, s.arrived = s.granted ++ rest := by
  have hinv := lockInv_reach h
  exact ⟨hinv.2.1, ⟨lockQueue s, hinv.2.2.1⟩⟩

/-- Witness for C2 at a concrete reachable state: client 0 acquires, client 1
arrives and waits. -/
theorem C2_channel_lock_witness :
    ∃ s : LockState, LockReach s ∧
      ((∀ c1 c2 p1 p2, s.phase c1 = .holding p1 → s.phase c2 = .holding p2 → c1 = c2) ∧
        ∃ rest, s.arrived = s.granted ++ rest) := by
  have hreach : LockReach (tryAcquire 1
      { tryAcquire 0 { lockInit with arrived := lockInit.arrived ++ [0] } with
        arrived := (tryAcquire 0 { lockInit with arrived := lockInit.arrived ++ [0] }).arrived
          ++ [1] }) :=
    Relation.ReflTransGen.tail
      (Relation.ReflTransGen.single (LockStep.start 0 lockInit rfl rfl))
      (LockStep.start 1 _ rfl rfl)
  exact ⟨_, hreach, C2_channel_lock_mutex_fifo _ hreach⟩

/-! ## The task registry (src/mcp/cron.ts)

`ScheduledTask` objects live in the module-level `tasks : Map<string,
ScheduledTask>`; `taskCounter` numbers them (`generateId`).  The registry is
embedded as a list of tasks (`Map` iteration order is insertion order) plus
the counter.  Timer/timeout handles are embedded as booleans (field set or
not); Slack message timestamps as `Option Nat`; schedule values as `Int`
(milliseconds for `interval`, epoch milliseconds for `once`, unused for
`cron` — the textual cron expression does not influence registry state).

Every JavaScript handler runs atomically on the single-threaded event loop
(the handlers' `await`s are only for Slack posts, after which the remaining
mutation is still a single synchronous block; each handler's net effect on
the registry is captured as one transition).  `setTimeout(…, 0)` scheduled by
`startSchedule` for an already-due `once` task is NOT stored in `task.timer`;
it is embedded as the `pendingImmediate` flag. -/

/-- `scheduleType` of a task. -/
inductive SType
  | cron
  | interval
  | once
deriving DecidableEq

/-- `status` of a task. -/
inductive TStatus
  | pendingApproval
  | active
  | paused
  | pendingCancellation
deriving DecidableEq

/-- Embedding of `ScheduledTask` (cron.ts lines 31-47). -/
structure Task where
  id : Nat
  scheduleType : SType
  scheduleValue : Int
  channelId : Nat
  status : TStatus
  isRunning : Bool
  timer : Bool
  pendingImmediate : Bool
  approvalMessageTs : Option Nat
  approvalTimeout : Bool
  cancellationMessageTs : Option Nat
  cancellationTimeout : Bool
deriving DecidableEq

/-- The registry: `tasks` map (insertion order) and `taskCounter`. -/
structure RegState where
  tasks : List Task
  counter : Nat
deriving DecidableEq

/-- `tasks.get(id)`. -/
def lookupTask (s : RegState) (id : Nat) : Option Task :=
  s.tasks.find? (fun t => t.id == id)

/-- `tasks.has(id)`. -/
def hasTask (s : RegState) (id : Nat) : Bool :=
  (lookupTask s id).isSome

/-- Mutating the task object stored under `id` (JavaScript mutates the object
held by the map in place). -/
def updateTask (s : RegState) (id : Nat) (f : Task → Task) : RegState :=
  { s with tasks := s.tasks.map (fun t => if t.id == id then f t else t) }

/-- `tasks.delete(id)`. -/
def deleteTask (s : RegState) (id : Nat) : RegState :=
  { s with tasks := s.tasks.filter (fun t => !(t.id == id)) }

/-- Number of registered tasks of a channel (`Array.from(tasks.values())
.filter(t => t.channelId === channelId).length`, cron.ts line 660). -/
def countChannel (s : RegState) (ch : Nat) : Nat :=
  (s.tasks.filter (fun t => t.channelId == ch)).length

/-- `MAX_TASKS_PER_CHANNEL` (cron.ts line 27). -/
def MAX_TASKS_PER_CHANNEL : Nat := 10

/-- `APPROVAL_TIMEOUT_MS` (cron.ts line 28). -/
def APPROVAL_TIMEOUT_MS : Nat := 15 * 60 * 1000

/-- Result of the `schedule_task` handler. -/
inductive SchedResult
  | created (id : Nat)
  | invalidSchedule
  | capacityError
  | postFailed
deriving DecidableEq

/-- The task object literal created by `schedule_task` (cron.ts lines
668-678). -/
def freshTask (id : Nat) (stype : SType) (sval : Int) (chan : Nat) : Task :=
  { id := id, scheduleType := stype, scheduleValue := sval, channelId := chan,
    status := .pendingApproval, isRunning := false, timer := false,
    pendingImmediate := false, approvalMessageTs := none, approvalTimeout := false,
    cancellationMessageTs := none, cancellationTimeout := false }

/-- `task.approvalMessageTs = approvalMsg.ts` followed by arming the approval
timeout (cron.ts lines 698 and 709). -/
def setApprovalHandle (ts : Nat) (u : Task) : Task :=
  { u with approvalMessageTs := some ts, approvalTimeout := true }

/-- Embedding of the `schedule_task` handler (cron.ts lines 624-751).
Schedule validation/normalization is abstracted by `valid` and the normalized
`sval` (for `interval` inputs, `valid` stands for `parseDuration` succeeding
with a value of at least 60000 ms; `parseDuration` is verified separately);
`postOk` is whether the Slack approval post succeeds, `ts` the returned
message timestamp.  On post failure the just-created task is deleted and an
error is returned before the approval timeout would be armed (lines
699-706). -/
def scheduleTask (s : RegState) (chan : Nat) (stype : SType) (sval : Int)
    (valid postOk : Bool) (ts : Nat) : RegState × SchedResult :=
  if valid = false then (s, .invalidSchedule)
  else if MAX_TASKS_PER_CHANNEL ≤ countChannel s chan then (s, .capacityError)
  else
    let s1 : RegState := { tasks := s.tasks ++ [freshTask (s.counter + 1) stype sval chan],
                           counter := s.counter + 1 }
    if postOk then
      (updateTask s1 (s.counter + 1) (setApprovalHandle ts), .created (s.counter + 1))
    else
      (deleteTask s1 (s.counter + 1), .postFailed)

/-- Embedding of `startSchedule` (cron.ts lines 458-502): `interval` and
`cron` arm a repeating timer stored in `task.timer`; `once` arms a one-shot
timer in `task.timer` only when the delay is positive — an already-due instant
is scheduled with `setTimeout(…, 0)` that is NOT stored in `task.timer`
(modelled by `pendingImmediate`). -/
def startSchedule (now : Int) (t : Task) : Task :=
  match t.scheduleType with
  | .interval => { t with timer := true }
  | .cron => { t with timer := true }
  | .once =>
      if 0 < t.scheduleValue - now then { t with timer := true }
      else { t with pendingImmediate := true }

/-- Embedding of `activateTask` (cron.ts lines 517-530): requires the task to
exist in status `pending_approval`; clears the approval timeout, sets status
`active`, starts the schedule.  `approvalMessageTs` is not touched. -/
def activateTask (s : RegState) (id : Nat) (now : Int) : RegState × Bool :=
  match lookupTask s id with
  | none => (s, false)
  | some t =>
    if t.status = .pendingApproval then
      (updateTask s id (fun u =>
        startSchedule now { u with approvalTimeout := false, status := .active }), true)
    else (s, false)

/-- Embedding of `rejectTask` (cron.ts lines 533-545). -/
def rejectTask (s : RegState) (id : Nat) : RegState × Bool :=
  match lookupTask s id with
  | none => (s, false)
  | some t =>
    if t.status = .pendingApproval then (deleteTask s id, true) else (s, false)

/-- Embedding of `confirmCancellation` (cron.ts lines 558-576): only a task in
status `pending_cancellation` is cleared and removed; a missing task or any
other status returns `false` with no mutation. -/
def confirmCancellation (s : RegState) (id : Nat) : RegState × Bool :=
  match lookupTask s id with
  | none => (s, false)
  | some t =>
    if t.status = .pendingCancellation then (deleteTask s id, true) else (s, false)

/-- Embedding of `rejectCancellation` (cron.ts lines 579-591). -/
def rejectCancellation (s : RegState) (id : Nat) : RegState × Bool :=
  match lookupTask s id with
  | none => (s, false)
  | some t =>
    if t.status = .pendingCancellation then
      (updateTask s id (fun u =>
        { u with cancellationTimeout := false, cancellationMessageTs := none,
                 status := .active }), true)
    else (s, false)

/-- Result of the `cancel_task` handler. -/
inductive CancelResult
  | notFound
  | removedPending
  | alreadyPending
  | requested
  | postFailed
deriving DecidableEq

/-- Embedding of the `cancel_task` handler (cron.ts lines 791-888): a missing
task errors; a `pending_approval` task is removed directly; a task already
`pending_cancellation` errors; otherwise the task moves to
`pending_cancellation` with the cancellation prompt's timestamp and timeout —
unless the Slack post fails, in which case the status flip is reverted and the
net effect is no mutation. -/
def cancelTask (s : RegState) (id : Nat) (postOk : Bool) (ts : Nat) :
    RegState × CancelResult :=
  match lookupTask s id with
  | none => (s, .notFound)
  | some t =>
    if t.status = .pendingApproval then (deleteTask s id, .removedPending)
    else if t.status = .pendingCancellation then (s, .alreadyPending)
    else if postOk then
      (updateTask s id (fun u =>
        { u with status := .pendingCancellation, cancellationMessageTs := some ts,
                 cancellationTimeout := true }), .requested)
    else (s, .postFailed)

/-- Embedding of the `cancel_self` tool (cron.ts lines 373-420): clears all
timers of the captured task and deletes it; an already-removed task is a
no-op. -/
def cancelSelf (s : RegState) (id : Nat) : RegState × Bool :=
  match lookupTask s id with
  | none => (s, false)
  | some _ => (deleteTask s id, true)

/-- Events of the registry: one label per handler execution or timer/timeout
callback. `register` covers `schedule_task`; `approve`/`rejectPending` the
reaction listener paths; `approvalExpire`/`cancelExpire` the 15-minute
timeout callbacks; `fireTimer` a schedule-timer tick that passes the status
and `isRunning` guards and invokes the Agent Runtime; `fireImmediate` the
untracked `setTimeout(…, 0)` execution of an already-due `once` task;
`finishRun` the guaranteed cleanup at the end of `executeTask`; `shutdown`
is `shutdownCron`. -/
inductive Label
  | register (chan : Nat) (stype : SType) (sval : Int) (valid postOk : Bool) (ts : Nat)
  | approve (id : Nat) (now : Int)
  | rejectPending (id : Nat)
  | approvalExpire (id : Nat)
  | requestCancel (id : Nat) (postOk : Bool) (ts : Nat)
  | confirmCancel (id : Nat)
  | rejectCancel (id : Nat)
  | cancelExpire (id : Nat)
  | selfCancel (id : Nat)
  | fireTimer (id : Nat)
  | fireImmediate (id : Nat)
  | finishRun (id : Nat)
  | shutdown
deriving DecidableEq

/-- One registry transition.  Handler labels always apply (errors are ordinary
return values); timer labels apply only when the corresponding handle is live
(`none` marks an impossible event).  The `approvalExpire` callback deletes the
task only if it is still `pending_approval` (cron.ts lines 709-729); the
`cancelExpire` callback reverts to `active` only if still
`pending_cancellation` (lines 850-872); `fireTimer` requires the armed
schedule timer, the interval/cron callbacks' status check (the `once` callback
has none), and `executeTask`'s `isRunning` guard; `finishRun` resets
`isRunning` and deletes a still-registered `once` task (lines 330-338). -/
def applyLabel (l : Label) (s : RegState) : Option RegState :=
  match l with
  | .register chan stype sval valid postOk ts =>
      some (scheduleTask s chan stype sval valid postOk ts).1
  | .approve id now => some (activateTask s id now).1
  | .rejectPending id => some (rejectTask s id).1
  | .approvalExpire id =>
      match lookupTask s id with
      | none => none
      | some t =>
        if t.approvalTimeout then
          some (if t.status = .pendingApproval then deleteTask s id
                else updateTask s id (fun u => { u with approvalTimeout := false }))
        else none
  | .requestCancel id postOk ts => some (cancelTask s id postOk ts).1
  | .confirmCancel id => some (confirmCancellation s id).1
  | .rejectCancel id => some (rejectCancellation s id).1
  | .selfCancel id => some (cancelSelf s id).1
  | .cancelExpire id =>
      match lookupTask s id with
      | none => none
      | some t =>
        if t.cancellationTimeout then
          some (if t.status = .pendingCancellation then
                  updateTask s id (fun u =>
                    { u with status := .active, cancellationMessageTs := none,
                             cancellationTimeout := false })
                else updateTask s id (fun u => { u with cancellationTimeout := false }))
        else none
  | .fireTimer id =>
      match lookupTask s id with
      | none => none
      | some t =>
        if t.timer = true ∧ t.isRunning = false ∧
            (t.scheduleType = .once ∨ t.status = .active ∨ t.status = .pendingCancellation)
        then some (updateTask s id (fun u => { u with isRunning := true }))
        else none
  | .fireImmediate id =>
      match lookupTask s id with
      | none => none
      | some t =>
        if t.pendingImmediate = true ∧ t.isRunning = false then
          some (updateTask s id (fun u =>
            { u with pendingImmediate := false, isRunning := true }))
        else none
  | .finishRun id =>
      match lookupTask s id with
      | none => some s
      | some t =>
        if t.isRunning = true then
          some (if t.scheduleType = .once then
                  deleteTask (updateTask s id (fun u => { u with isRunning := false })) id
                else updateTask s id (fun u => { u with isRunning := false }))
        else none
  | .shutdown => some { tasks := [], counter := s.counter }

/-- The empty initial registry. -/
def regInit : RegState := { tasks := [], counter := 0 }

/-- Running a trace of events. -/
def runTrace (s : RegState) : List Label → Option RegState
  | [] => some s
  | l :: tr =>
    match applyLabel l s with
    | none => none
    | some s1 => runTrace s1 tr

/-- Reachability of registry states. -/
def RegReach (s : RegState) : Prop := ∃ tr, runTrace regInit tr = some s

/-! ## Registry helper lemmas -/

theorem lookup_mem {s : RegState} {id : Nat} {t : Task} (h : lookupTask s id = some t) :
    t ∈ s.tasks ∧ t.id = id := by
  unfold lookupTask at h
  refine ⟨List.mem_of_find?_eq_some h, ?_⟩
  have h2 := List.find?_some h
  simpa using h2

theorem lookup_none_spec {s : RegState} {id : Nat} (h : lookupTask s id = none) :
    ∀ t ∈ s.tasks, t.id ≠ id := by
  unfold lookupTask at h
  intro t ht
  have := List.find?_eq_none.mp h t ht
  simpa using this

theorem mem_update {s : RegState} {id : Nat} {f : Task → Task} {u : Task}
    (hu : u ∈ (updateTask s id f).tasks) :
    ∃ t ∈ s.tasks, u = if t.id = id then f t else t := by
  unfold updateTask at hu
  simp only [List.mem_map] at hu
  obtain ⟨t, ht, heq⟩ := hu
  refine ⟨t, ht, ?_⟩
  rw [← heq]
  by_cases hid : t.id = id
  · rw [if_pos hid, if_pos (by simpa using hid)]
  · rw [if_neg hid, if_neg (by simpa using hid)]

theorem mem_delete {s : RegState} {id : Nat} {u : Task}
    (hu : u ∈ (deleteTask s id).tasks) : u ∈ s.tasks := by
  unfold deleteTask at hu
  exact (List.mem_filter.mp hu).1

theorem lookup_unique {s : RegState} {id : Nat} {t : Task}
    (hnd : (s.tasks.map Task.id).Nodup) (h : lookupTask s id = some t)
    {t' : Task} (ht' : t' ∈ s.tasks) (hid : t'.id = id) : t' = t := by
  obtain ⟨hmem, hidt⟩ := lookup_mem h
  exact List.inj_on_of_nodup_map hnd ht' hmem (by rw [hid, hidt])

theorem update_ids {s : RegState} {id : Nat} {f : Task → Task}
    (hf : ∀ t, (f t).id = t.id) :
    (updateTask s id f).tasks.map Task.id = s.tasks.map Task.id := by
  unfold updateTask
  simp only [List.map_map]
  apply List.map_congr_left
  intro t _
  show Task.id (if t.id == id then f t else t) = t.id
  by_cases hid : t.id == id
  · rw [if_pos hid]; exact hf t
  · rw [if_neg hid]

theorem delete_ids_sublist (s : RegState) (id : Nat) :
    ((deleteTask s id).tasks.map Task.id).Sublist (s.tasks.map Task.id) := by
  unfold deleteTask
  exact (List.filter_sublist _).map _

/-- Looking up after an id-preserving update. -/
theorem lookup_update {s : RegState} {id : Nat} {f : Task → Task}
    (hf : ∀ t, (f t).id = t.id) (j : Nat) :
    lookupTask (updateTask s id f) j
      = (lookupTask s j).map (fun t => if t.id = id then f t else t) := by
  unfold lookupTask updateTask
  show (s.tasks.map (fun t => if t.id == id then f t else t)).find? (fun t => t.id == j)
      = (s.tasks.find? (fun t => t.id == j)).map (fun t => if t.id = id then f t else t)
  rw [List.find?_map]
  rw [show ((fun t : Task => t.id == j) ∘ fun t => if t.id == id then f t else t)
      = (fun t : Task => t.id == j) from ?_]
  · cases s.tasks.find? (fun t => t.id == j) with
    | none => rfl
    | some t =>
      show some (if t.id == id then f t else t) = some (if t.id = id then f t else t)
      by_cases hid : t.id = id
      · rw [if_pos (by simpa using hid : (t.id == id) = true), if_pos hid]
      · rw [if_neg (by simpa using hid : ¬((t.id == id) = true)), if_neg hid]
  · funext t
    show ((if t.id == id then f t else t).id == j) = (t.id == j)
    by_cases hid : t.id == id
    · rw [if_pos hid, hf t]
    · rw [if_neg hid]

theorem lookup_delete_self (s : RegState) (id : Nat) :
    lookupTask (deleteTask s id) id = none := by
  unfold lookupTask deleteTask
  apply List.find?_eq_none.mpr
  intro t ht
  have := (List.mem_filter.mp ht).2
  simpa using this

/-! ## The registry invariant (claims C3 and C4, amended) -/

/-- Per-task invariant: correlation-handle and timer-field facts maintained by
every handler. -/
def TaskInv (t : Task) : Prop :=
  (t.status = .pendingApproval → t.approvalMessageTs.isSome = true) ∧
  (t.cancellationMessageTs.isSome = true ↔ t.status = .pendingCancellation) ∧
  (t.timer = true → t.status = .active ∨ t.status = .pendingCancellation) ∧
  ((t.status = .active ∨ t.status = .pendingCancellation) →
    t.timer = true ∨ t.pendingImmediate = true ∨ t.isRunning = true) ∧
  t.status ≠ .paused ∧
  (t.isRunning = true → t.scheduleType ≠ .once → t.timer = true) ∧
  (t.pendingImmediate = true → t.scheduleType = .once) ∧
  (t.status = .pendingApproval →
    t.isRunning = false ∧ t.timer = false ∧ t.pendingImmediate = false)

/-- Registry invariant: every task satisfies `TaskInv`, ids are bounded by the
counter, and ids are unique. -/
def RegInv (s : RegState) : Prop :=
  (∀ t ∈ s.tasks, TaskInv t) ∧
  (∀ t ∈ s.tasks, t.id ≤ s.counter) ∧
  (s.tasks.map Task.id).Nodup

theorem regInv_init : RegInv regInit := by
  refine ⟨?_, ?_, ?_⟩ <;> simp [regInit]

theorem regInv_delete {s : RegState} (hinv : RegInv s) (id : Nat) :
    RegInv (deleteTask s id) := by
  obtain ⟨h1, h2, h3⟩ := hinv
  refine ⟨fun t ht => h1 t (mem_delete ht), fun t ht => h2 t (mem_delete ht), ?_⟩
  exact List.Nodup.sublist (delete_ids_sublist s id) h3

/-- Field-level reading of `TaskInv` on a literal task. -/
theorem taskInv_mk {tid : Nat} {tsch : SType} {tsv : Int} {tch : Nat} {tstat : TStatus}
    {trun ttim tpi : Bool} {tams : Option Nat} {tato : Bool} {tcts : Option Nat}
    {tcto : Bool} :
    TaskInv ⟨tid, tsch, tsv, tch, tstat, trun, ttim, tpi, tams, tato, tcts, tcto⟩ ↔
      ((tstat = .pendingApproval → tams.isSome = true) ∧
        (tcts.isSome = true ↔ tstat = .pendingCancellation) ∧
        (ttim = true → tstat = .active ∨ tstat = .pendingCancellation) ∧
        ((tstat = .active ∨ tstat = .pendingCancellation) →
          ttim = true ∨ tpi = true ∨ trun = true) ∧
        tstat ≠ .paused ∧
        (trun = true → tsch ≠ .once → ttim = true) ∧
        (tpi = true → tsch = .once) ∧
        (tstat = .pendingApproval → trun = false ∧ ttim = false ∧ tpi = false)) :=
  Iff.rfl

theorem taskInv_setAms (ts : Nat) {t : Task} (h : TaskInv t) :
    TaskInv { t with approvalMessageTs := some ts, approvalTimeout := true } := by
  obtain ⟨tid, tsch, tsv, tch, tstat, trun, ttim, tpi, tams, tato, tcts, tcto⟩ := t
  rw [taskInv_mk] at h
  obtain ⟨i1, i2, i3, i4, i5, i6, i7, i8⟩ := h
  show TaskInv ⟨tid, tsch, tsv, tch, tstat, trun, ttim, tpi, some ts, true, tcts, tcto⟩
  rw [taskInv_mk]
  exact ⟨fun _ => rfl, i2, i3, i4, i5, i6, i7, i8⟩

theorem taskInv_clearApproval {t : Task} (h : TaskInv t) :
    TaskInv { t with approvalTimeout := false } := by
  obtain ⟨tid, tsch, tsv, tch, tstat, trun, ttim, tpi, tams, tato, tcts, tcto⟩ := t
  rw [taskInv_mk] at h
  show TaskInv ⟨tid, tsch, tsv, tch, tstat, trun, ttim, tpi, tams, false, tcts, tcto⟩
  rw [taskInv_mk]
  exact h

theorem taskInv_clearCancelTimeout {t : Task} (h : TaskInv t) :
    TaskInv { t with cancellationTimeout := false } := by
  obtain ⟨tid, tsch, tsv, tch, tstat, trun, ttim, tpi, tams, tato, tcts, tcto⟩ := t
  rw [taskInv_mk] at h
  show TaskInv ⟨tid, tsch, tsv, tch, tstat, trun, ttim, tpi, tams, tato, tcts, false⟩
  rw [taskInv_mk]
  exact h

theorem taskInv_activate (now : Int) {t : Task} (h : TaskInv t)
    (hpa : t.status = .pendingApproval) :
    TaskInv (startSchedule now { t with approvalTimeout := false, status := .active }) := by
  obtain ⟨tid, tsch, tsv, tch, tstat, trun, ttim, tpi, tams, tato, tcts, tcto⟩ := t
  rw [taskInv_mk] at h
  replace hpa : tstat = .pendingApproval := hpa
  subst hpa
  obtain ⟨i1, i2, i3, i4, i5, i6, i7, i8⟩ := h
  obtain ⟨r1, r2, r3⟩ := i8 rfl
  subst r1; subst r2; subst r3
  have hcts : tcts = none := by
    cases hq : tcts with
    | none => rfl
    | some v => subst hq; simp at i2
  subst hcts
  cases tsch with
  | interval =>
    show TaskInv ⟨tid, .interval, tsv, tch, .active, false, true, false, tams, false,
      none, tcto⟩
    rw [taskInv_mk]
    simp
  | cron =>
    show TaskInv ⟨tid, .cron, tsv, tch, .active, false, true, false, tams, false,
      none, tcto⟩
    rw [taskInv_mk]
    simp
  | once =>
    show TaskInv (if 0 < tsv - now
      then (⟨tid, .once, tsv, tch, .active, false, true, false, tams, false,
        none, tcto⟩ : Task)
      else ⟨tid, .once, tsv, tch, .active, false, false, true, tams, false,
        none, tcto⟩)
    split_ifs with hd
    · rw [taskInv_mk]; simp
    · rw [taskInv_mk]; simp

theorem taskInv_requestCancel (ts : Nat) {t : Task} (h : TaskInv t)
    (hact : t.status = .active) :
    TaskInv { t with status := .pendingCancellation, cancellationMessageTs := some ts,
                     cancellationTimeout := true } := by
  obtain ⟨tid, tsch, tsv, tch, tstat, trun, ttim, tpi, tams, tato, tcts, tcto⟩ := t
  rw [taskInv_mk] at h
  replace hact : tstat = .active := hact
  subst hact
  obtain ⟨i1, i2, i3, i4, i5, i6, i7, i8⟩ := h
  show TaskInv ⟨tid, tsch, tsv, tch, .pendingCancellation, trun, ttim, tpi, tams, tato,
    some ts, true⟩
  rw [taskInv_mk]
  exact ⟨by simp, by simp, fun _ => Or.inr rfl, fun _ => i4 (Or.inl rfl), by simp, i6, i7,
    by simp⟩

theorem taskInv_rejectCancel {t : Task} (h : TaskInv t)
    (hpc : t.status = .pendingCancellation) :
    TaskInv { t with cancellationTimeout := false, cancellationMessageTs := none,
                     status := .active } := by
  obtain ⟨tid, tsch, tsv, tch, tstat, trun, ttim, tpi, tams, tato, tcts, tcto⟩ := t
  rw [taskInv_mk] at h
  replace hpc : tstat = .pendingCancellation := hpc
  subst hpc
  obtain ⟨i1, i2, i3, i4, i5, i6, i7, i8⟩ := h
  show TaskInv ⟨tid, tsch, tsv, tch, .active, trun, ttim, tpi, tams, tato, none, false⟩
  rw [taskInv_mk]
  exact ⟨by simp, by simp, fun _ => Or.inl rfl, fun _ => i4 (Or.inr rfl), by simp, i6, i7,
    by simp⟩

theorem taskInv_fireTimer {t : Task} (h : TaskInv t) (htm : t.timer = true) :
    TaskInv { t with isRunning := true } := by
  obtain ⟨tid, tsch, tsv, tch, tstat, trun, ttim, tpi, tams, tato, tcts, tcto⟩ := t
  rw [taskInv_mk] at h
  replace htm : ttim = true := htm
  subst htm
  obtain ⟨i1, i2, i3, i4, i5, i6, i7, i8⟩ := h
  have hstat := i3 rfl
  show TaskInv ⟨tid, tsch, tsv, tch, tstat, true, true, tpi, tams, tato, tcts, tcto⟩
  rw [taskInv_mk]
  refine ⟨i1, i2, i3, fun _ => Or.inl rfl, i5, fun _ _ => rfl, i7, fun hp => ?_⟩
  rw [hp] at hstat
  rcases hstat with hc | hc <;> cases hc

theorem taskInv_fireImmediate {t : Task} (h : TaskInv t)
    (hpi : t.pendingImmediate = true) :
    TaskInv { t with pendingImmediate := false, isRunning := true } := by
  obtain ⟨tid, tsch, tsv, tch, tstat, trun, ttim, tpi, tams, tato, tcts, tcto⟩ := t
  rw [taskInv_mk] at h
  replace hpi : tpi = true := hpi
  subst hpi
  obtain ⟨i1, i2, i3, i4, i5, i6, i7, i8⟩ := h
  have hsch : tsch = .once := i7 rfl
  subst hsch
  show TaskInv ⟨tid, .once, tsv, tch, tstat, true, ttim, false, tams, tato, tcts, tcto⟩
  rw [taskInv_mk]
  refine ⟨i1, i2, i3, fun _ => Or.inr (Or.inr rfl), i5, fun _ hc => absurd rfl hc,
    fun _ => rfl, fun hp => absurd (i8 hp).2.2 (by simp)⟩

theorem taskInv_finishRun {t : Task} (h : TaskInv t) (hrun : t.isRunning = true)
    (hsch : t.scheduleType ≠ .once) :
    TaskInv { t with isRunning := false } := by
  obtain ⟨tid, tsch, tsv, tch, tstat, trun, ttim, tpi, tams, tato, tcts, tcto⟩ := t
  rw [taskInv_mk] at h
  replace hrun : trun = true := hrun
  subst hrun
  replace hsch : tsch ≠ .once := hsch
  obtain ⟨i1, i2, i3, i4, i5, i6, i7, i8⟩ := h
  have htim : ttim = true := i6 rfl hsch
  subst htim
  show TaskInv ⟨tid, tsch, tsv, tch, tstat, false, true, tpi, tams, tato, tcts, tcto⟩
  rw [taskInv_mk]
  exact ⟨i1, i2, i3, fun _ => Or.inl rfl, i5, fun _ _ => rfl, i7,
    fun hp => absurd (i8 hp).2.1 (by simp)⟩

theorem startSchedule_id (now : Int) (t : Task) : (startSchedule now t).id = t.id := by
  unfold startSchedule
  cases htsch : t.scheduleType
  · rfl
  · rfl
  · split_ifs <;> rfl

theorem regInv_update {s : RegState} {id : Nat} {f : Task → Task} (hinv : RegInv s)
    (hf : ∀ t, (f t).id = t.id)
    (hTask : ∀ t ∈ s.tasks, t.id = id → TaskInv (f t)) :
    RegInv (updateTask s id f) := by
  obtain ⟨h1, h2, h3⟩ := hinv
  refine ⟨?_, ?_, ?_⟩
  · intro u hu
    obtain ⟨t, ht, heq⟩ := mem_update hu
    by_cases hid : t.id = id
    · rw [heq, if_pos hid]; exact hTask t ht hid
    · rw [heq, if_neg hid]; exact h1 t ht
  · intro u hu
    obtain ⟨t, ht, heq⟩ := mem_update hu
    show u.id ≤ s.counter
    by_cases hid : t.id = id
    · rw [heq, if_pos hid, hf t]; exact h2 t ht
    · rw [heq, if_neg hid]; exact h2 t ht
  · show ((updateTask s id f).tasks.map Task.id).Nodup
    rw [update_ids hf]; exact h3

theorem regInv_delete_update {s : RegState} {id : Nat} {f : Task → Task} (hinv : RegInv s)
    (hf : ∀ t, (f t).id = t.id) :
    RegInv (deleteTask (updateTask s id f) id) := by
  obtain ⟨h1, h2, h3⟩ := hinv
  refine ⟨?_, ?_, ?_⟩
  · intro u hu
    have hne : u.id ≠ id := by
      unfold deleteTask at hu
      have := (List.mem_filter.mp hu).2
      simpa using this
    obtain ⟨t, ht, heq⟩ := mem_update (mem_delete hu)
    by_cases hid : t.id = id
    · exfalso; apply hne; rw [heq, if_pos hid, hf t, hid]
    · rw [heq, if_neg hid]; exact h1 t ht
  · intro u hu
    obtain ⟨t, ht, heq⟩ := mem_update (mem_delete hu)
    show u.id ≤ s.counter
    by_cases hid : t.id = id
    · rw [heq, if_pos hid, hf t]; exact h2 t ht
    · rw [heq, if_neg hid]; exact h2 t ht
  · exact List.Nodup.sublist (delete_ids_sublist _ id) (by rw [update_ids hf]; exact h3)

theorem freshTask_id (id : Nat) (stype : SType) (sval : Int) (chan : Nat) :
    (freshTask id stype sval chan).id = id := rfl

theorem regInv_scheduleTask {s : RegState} (hinv : RegInv s) (chan : Nat) (stype : SType)
    (sval : Int) (valid postOk : Bool) (ts : Nat) :
    RegInv (scheduleTask s chan stype sval valid postOk ts).1 := by
  obtain ⟨h1, h2, h3⟩ := hinv
  have hnin : ∀ u ∈ s.tasks, u.id ≠ s.counter + 1 := by
    intro u hu heq
    have := h2 u hu
    omega
  have hnd1 : ((s.tasks ++ [freshTask (s.counter + 1) stype sval chan]).map
      Task.id).Nodup := by
    rw [List.map_append, List.nodup_append]
    refine ⟨h3, by simp, ?_⟩
    intro a ha hb
    simp only [freshTask, List.map_cons, List.map_nil, List.mem_cons, List.not_mem_nil,
      or_false] at hb
    rw [List.mem_map] at ha
    obtain ⟨u, hu, hua⟩ := ha
    exact hnin u hu (by rw [hua, hb])
  have hmem_new : ∀ t, t ∈ s.tasks ++ [freshTask (s.counter + 1) stype sval chan] →
      t ∈ s.tasks ∨ t = freshTask (s.counter + 1) stype sval chan := by
    intro t ht
    rcases List.mem_append.mp ht with h | h
    · exact Or.inl h
    · exact Or.inr (by simpa using h)
  unfold scheduleTask
  split
  · exact ⟨h1, h2, h3⟩
  · split
    · exact ⟨h1, h2, h3⟩
    · show RegInv (if postOk = true
        then (updateTask ⟨s.tasks ++ [freshTask (s.counter + 1) stype sval chan],
            s.counter + 1⟩ (s.counter + 1) (setApprovalHandle ts),
          SchedResult.created (s.counter + 1))
        else (deleteTask ⟨s.tasks ++ [freshTask (s.counter + 1) stype sval chan],
            s.counter + 1⟩ (s.counter + 1), SchedResult.postFailed)).1
      split
      · -- post succeeded: the new task gets its approval handle and timeout
        show RegInv (updateTask ⟨s.tasks ++ [freshTask (s.counter + 1) stype sval chan],
          s.counter + 1⟩ (s.counter + 1) (setApprovalHandle ts))
        refine ⟨?_, ?_, ?_⟩
        · intro u hu
          obtain ⟨t, ht, heq⟩ := mem_update hu
          rcases hmem_new t ht with hold | hnew
          · rw [heq, if_neg (hnin t hold)]
            exact h1 t hold
          · subst hnew
            rw [heq, if_pos (freshTask_id ..)]
            show TaskInv ⟨s.counter + 1, stype, sval, chan, .pendingApproval, false, false,
              false, some ts, true, none, false⟩
            rw [taskInv_mk]
            simp
        · intro u hu
          obtain ⟨t, ht, heq⟩ := mem_update hu
          show u.id ≤ s.counter + 1
          have hid : t.id ≤ s.counter + 1 := by
            rcases hmem_new t ht with hold | hnew
            · have := h2 t hold; omega
            · rw [hnew]; exact Nat.le_refl _
          by_cases hcase : t.id = s.counter + 1
          · rw [heq, if_pos hcase]
            exact hid
          · rw [heq, if_neg hcase]; exact hid
        · have hids : (updateTask ⟨s.tasks ++ [freshTask (s.counter + 1) stype sval chan],
                s.counter + 1⟩ (s.counter + 1) (setApprovalHandle ts)).tasks.map Task.id
              = (s.tasks ++ [freshTask (s.counter + 1) stype sval chan]).map Task.id :=
            update_ids (fun u => rfl)
          rw [hids]
          exact hnd1
      · -- post failed: the new task is deleted again
        show RegInv (deleteTask ⟨s.tasks ++ [freshTask (s.counter + 1) stype sval chan],
          s.counter + 1⟩ (s.counter + 1))
        refine ⟨?_, ?_, ?_⟩
        · intro u hu
          have hne : u.id ≠ s.counter + 1 := by
            unfold deleteTask at hu
            have := (List.mem_filter.mp hu).2
            simpa using this
          rcases hmem_new u (mem_delete hu) with hold | hnew
          · exact h1 u hold
          · exact absurd (by rw [hnew]; rfl : u.id = s.counter + 1) hne
        · intro u hu
          show u.id ≤ s.counter + 1
          rcases hmem_new u (mem_delete hu) with hold | hnew
          · have := h2 u hold; omega
          · rw [hnew]; exact Nat.le_refl _
        · exact List.Nodup.sublist (delete_ids_sublist _ _) hnd1

theorem regInv_activateTask {s : RegState} (hinv : RegInv s) (id : Nat) (now : Int) :
    RegInv (activateTask s id now).1 := by
  obtain ⟨h1, h2, h3⟩ := hinv
  unfold activateTask
  split
  · exact ⟨h1, h2, h3⟩
  · next t hlk =>
    split
    · next hst =>
      refine regInv_update ⟨h1, h2, h3⟩ (fun u => startSchedule_id now _) ?_
      intro t' ht' hid
      have := lookup_unique h3 hlk ht' hid
      subst this
      exact taskInv_activate now (h1 t' ht') hst
    · exact ⟨h1, h2, h3⟩

theorem regInv_rejectTask {s : RegState} (hinv : RegInv s) (id : Nat) :
    RegInv (rejectTask s id).1 := by
  obtain ⟨h1, h2, h3⟩ := hinv
  unfold rejectTask
  split
  · exact ⟨h1, h2, h3⟩
  · split
    · exact regInv_delete ⟨h1, h2, h3⟩ id
    · exact ⟨h1, h2, h3⟩

theorem regInv_confirmCancellation {s : RegState} (hinv : RegInv s) (id : Nat) :
    RegInv (confirmCancellation s id).1 := by
  obtain ⟨h1, h2, h3⟩ := hinv
  unfold confirmCancellation
  split
  · exact ⟨h1, h2, h3⟩
  · split
    · exact regInv_delete ⟨h1, h2, h3⟩ id
    · exact ⟨h1, h2, h3⟩

theorem regInv_rejectCancellation {s : RegState} (hinv : RegInv s) (id : Nat) :
    RegInv (rejectCancellation s id).1 := by
  obtain ⟨h1, h2, h3⟩ := hinv
  unfold rejectCancellation
  split
  · exact ⟨h1, h2, h3⟩
  · next t hlk =>
    split
    · next hst =>
      refine regInv_update ⟨h1, h2, h3⟩ (fun u => rfl) ?_
      intro t' ht' hid
      have := lookup_unique h3 hlk ht' hid
      subst this
      exact taskInv_rejectCancel (h1 t' ht') hst
    · exact ⟨h1, h2, h3⟩

theorem regInv_cancelTask {s : RegState} (hinv : RegInv s) (id : Nat) (postOk : Bool)
    (ts : Nat) : RegInv (cancelTask s id postOk ts).1 := by
  obtain ⟨h1, h2, h3⟩ := hinv
  unfold cancelTask
  split
  · exact ⟨h1, h2, h3⟩
  · next t hlk =>
    split
    · exact regInv_delete ⟨h1, h2, h3⟩ id
    · next hpa =>
      split
      · exact ⟨h1, h2, h3⟩
      · next hpc =>
        split
        · next hpost =>
          have hact : t.status = .active := by
            have hnp : t.status ≠ .paused := (h1 t (lookup_mem hlk).1).2.2.2.2.1
            cases hq : t.status
            · exact absurd hq hpa
            · rfl
            · exact absurd hq hnp
            · exact absurd hq hpc
          refine regInv_update ⟨h1, h2, h3⟩ (fun u => rfl) ?_
          intro t' ht' hid
          have := lookup_unique h3 hlk ht' hid
          subst this
          exact taskInv_requestCancel ts (h1 t' ht') hact
        · exact ⟨h1, h2, h3⟩

theorem regInv_cancelSelf {s : RegState} (hinv : RegInv s) (id : Nat) :
    RegInv (cancelSelf s id).1 := by
  obtain ⟨h1, h2, h3⟩ := hinv
  unfold cancelSelf
  split
  · exact ⟨h1, h2, h3⟩
  · exact regInv_delete ⟨h1, h2, h3⟩ id

/-- `RegInv` is preserved by every registry transition. -/
theorem regInv_apply {s s' : RegState} {l : Label} (hinv : RegInv s)
    (happ : applyLabel l s = some s') : RegInv s' := by
  obtain ⟨h1, h2, h3⟩ := hinv
  cases l with
  | register chan stype sval valid postOk ts =>
    simp only [applyLabel, Option.some.injEq] at happ
    subst happ
    exact regInv_scheduleTask ⟨h1, h2, h3⟩ chan stype sval valid postOk ts
  | approve id now =>
    simp only [applyLabel, Option.some.injEq] at happ
    subst happ
    exact regInv_activateTask ⟨h1, h2, h3⟩ id now
  | rejectPending id =>
    simp only [applyLabel, Option.some.injEq] at happ
    subst happ
    exact regInv_rejectTask ⟨h1, h2, h3⟩ id
  | approvalExpire id =>
    simp only [applyLabel] at happ
    split at happ
    · cases happ
    · next t hlk =>
      split at happ
      · rw [Option.some.injEq] at happ
        subst happ
        split
        · exact regInv_delete ⟨h1, h2, h3⟩ id
        · exact regInv_update ⟨h1, h2, h3⟩ (fun u => rfl)
            (fun t' ht' _ => taskInv_clearApproval (h1 t' ht'))
      · cases happ
  | requestCancel id postOk ts =>
    simp only [applyLabel, Option.some.injEq] at happ
    subst happ
    exact regInv_cancelTask ⟨h1, h2, h3⟩ id postOk ts
  | confirmCancel id =>
    simp only [applyLabel, Option.some.injEq] at happ
    subst happ
    exact regInv_confirmCancellation ⟨h1, h2, h3⟩ id
  | rejectCancel id =>
    simp only [applyLabel, Option.some.injEq] at happ
    subst happ
    exact regInv_rejectCancellation ⟨h1, h2, h3⟩ id
  | selfCancel id =>
    simp only [applyLabel, Option.some.injEq] at happ
    subst happ
    exact regInv_cancelSelf ⟨h1, h2, h3⟩ id
  | cancelExpire id =>
    simp only [applyLabel] at happ
    split at happ
    · cases happ
    · next t hlk =>
      split at happ
      · rw [Option.some.injEq] at happ
        subst happ
        split
        · next hst =>
          refine regInv_update ⟨h1, h2, h3⟩ (fun u => rfl) ?_
          intro t' ht' hid
          have := lookup_unique h3 hlk ht' hid
          subst this
          exact taskInv_rejectCancel (h1 t' ht') hst
        · exact regInv_update ⟨h1, h2, h3⟩ (fun u => rfl)
            (fun t' ht' _ => taskInv_clearCancelTimeout (h1 t' ht'))
      · cases happ
  | fireTimer id =>
    simp only [applyLabel] at happ
    split at happ
    · cases happ
    · next t hlk =>
      split at happ
      · next hcond =>
        rw [Option.some.injEq] at happ
        subst happ
        refine regInv_update ⟨h1, h2, h3⟩ (fun u => rfl) ?_
        intro t' ht' hid
        have := lookup_unique h3 hlk ht' hid
        subst this
        exact taskInv_fireTimer (h1 t' ht') hcond.1
      · cases happ
  | fireImmediate id =>
    simp only [applyLabel] at happ
    split at happ
    · cases happ
    · next t hlk =>
      split at happ
      · next hcond =>
        rw [Option.some.injEq] at happ
        subst happ
        refine regInv_update ⟨h1, h2, h3⟩ (fun u => rfl) ?_
        intro t' ht' hid
        have := lookup_unique h3 hlk ht' hid
        subst this
        exact taskInv_fireImmediate (h1 t' ht') hcond.1
      · cases happ
  | finishRun id =>
    simp only [applyLabel] at happ
    split at happ
    · rw [Option.some.injEq] at happ
      subst happ
      exact ⟨h1, h2, h3⟩
    · next t hlk =>
      split at happ
      · next hrun =>
        rw [Option.some.injEq] at happ
        subst happ
        split
        · exact regInv_delete_update ⟨h1, h2, h3⟩ (fun u => rfl)
        · next honce =>
          refine regInv_update ⟨h1, h2, h3⟩ (fun u => rfl) ?_
          intro t' ht' hid
          have := lookup_unique h3 hlk ht' hid
          subst this
          exact taskInv_finishRun (h1 t' ht') hrun honce
      · cases happ
  | shutdown =>
    simp only [applyLabel, Option.some.injEq] at happ
    subst happ
    refine ⟨?_, ?_, ?_⟩ <;> simp



/-- `RegInv` holds at every reachable registry state. -/
theorem regInv_reach {s : RegState} (h : RegReach s) : RegInv s := by
  obtain ⟨tr, hrun⟩ := h
  have main : ∀ (tr : List Label) (s0 s1 : RegState), RegInv s0 →
      runTrace s0 tr = some s1 → RegInv s1 := by
    intro tr
    induction tr with
    | nil =>
      intro s0 s1 h0 hr
      rw [runTrace, Option.some.injEq] at hr
      subst hr
      exact h0
    | cons l tr ih =>
      intro s0 s1 h0 hr
      rw [runTrace] at hr
      cases hap : applyLabel l s0 with
      | none => rw [hap] at hr; cases hr
      | some s2 =>
        rw [hap] at hr
        exact ih s2 s1 (regInv_apply h0 hap) hr
  exact main tr regInit s regInv_init hrun

/-- C3 counterexample: register an interval task (approval prompt timestamp 7)
and approve it.  The resulting reachable registry holds a task whose status is
`active` while its correlation handle `approvalMessageTs` is still set —
`activateTask` never clears `approvalMessageTs` — refuting both the claimed
iff and the "in particular, after approval no correlation handle remains"
consequence. -/
theorem C3_counterexample :
    ∃ (s : RegState) (t : Task),
      runTrace regInit [Label.register 0 SType.interval 90000 true true 7,
        Label.approve 1 0] = some s ∧
      t ∈ s.tasks ∧ t.status = TStatus.active ∧
      (t.approvalMessageTs.isSome = true ∨ t.cancellationMessageTs.isSome = true) :=
  ⟨⟨[⟨1, .interval, 90000, 0, .active, false, true, false, some 7, false, none, false⟩], 1⟩,
    ⟨1, .interval, 90000, 0, .active, false, true, false, some 7, false, none, false⟩,
    by decide, by decide, by decide, by decide⟩

/-- C3 (amended): over every reachable registry state, the correlation-handle
invariant holds in these directions: a `pending_approval` task always has
`approvalMessageTs` set, and `cancellationMessageTs` is set exactly when the
status is `pending_cancellation`.  The original iff fails in the remaining
direction only because `activateTask` leaves `approvalMessageTs` set on the
now-`active` task (see the counterexample); the stale handle is inert, since
the reaction listeners match it only together with status `pending_approval`. -/
theorem C3_correlation_invariant_amended (s : RegState) (hs : RegReach s) :
    ∀ t ∈ s.tasks,
      (t.status = TStatus.pendingApproval → t.approvalMessageTs.isSome = true) ∧
      (t.cancellationMessageTs.isSome = true ↔ t.status = TStatus.pendingCancellation) := by
  intro t ht
  have h := (regInv_reach hs).1 t ht
  exact ⟨h.1, h.2.1⟩

/-- Witness for the amended C3 invariant at a concrete reachable state (one
freshly registered pending task). -/
theorem C3_correlation_invariant_witness :
    ∃ s : RegState, RegReach s ∧
      ∀ t ∈ s.tasks,
        (t.status = TStatus.pendingApproval → t.approvalMessageTs.isSome = true) ∧
        (t.cancellationMessageTs.isSome = true ↔ t.status = TStatus.pendingCancellation) := by
  have hreach : RegReach ⟨[⟨1, .interval, 90000, 0, .pendingApproval, false, false, false,
      some 7, true, none, false⟩], 1⟩ :=
    ⟨[Label.register 0 SType.interval 90000 true true 7], by decide⟩
  exact ⟨_, hreach, C3_correlation_invariant_amended _ hreach⟩

/-- C4 counterexample: register a `once` task whose target instant (epoch ms 0)
is already past at approval time (`now` = 100) and approve it.  The resulting
reachable registry holds a task with status `active` and no `timer` handle:
`startSchedule` schedules the overdue execution with an untracked
`setTimeout(…, 0)` and never assigns `task.timer`. -/
theorem C4_counterexample :
    ∃ (s : RegState) (t : Task),
      runTrace regInit [Label.register 0 SType.once 0 true true 7,
        Label.approve 1 100] = some s ∧
      t ∈ s.tasks ∧ t.status = TStatus.active ∧ t.timer = false :=
  ⟨⟨[⟨1, .once, 0, 0, .active, false, false, true, some 7, false, none, false⟩], 1⟩,
    ⟨1, .once, 0, 0, .active, false, false, true, some 7, false, none, false⟩,
    by decide, by decide, by decide, by decide⟩

/-- C4 (amended): over every reachable registry state, a set `timer` field
implies status `active` or `pending_cancellation`; and every `active` or
`pending_cancellation` task has a live schedule in the weaker sense that its
`timer` field is set, or its overdue-`once` immediate execution is still
pending, or it is currently running.  The claimed iff fails only for an
approved `once` task whose target instant was already past at arming time
(see the counterexample), whose execution is scheduled outside the `timer`
field. -/
theorem C4_timer_invariant_amended (s : RegState) (hs : RegReach s) :
    ∀ t ∈ s.tasks,
      (t.timer = true → t.status = TStatus.active ∨
        t.status = TStatus.pendingCancellation) ∧
      ((t.status = TStatus.active ∨ t.status = TStatus.pendingCancellation) →
        t.timer = true ∨ t.pendingImmediate = true ∨ t.isRunning = true) := by
  intro t ht
  have h := (regInv_reach hs).1 t ht
  exact ⟨h.2.2.1, h.2.2.2.1⟩

/-- Witness for the amended C4 invariant at a concrete reachable state (an
approved interval task with a live timer). -/
theorem C4_timer_invariant_witness :
    ∃ s : RegState, RegReach s ∧
      ∀ t ∈ s.tasks,
        (t.timer = true → t.status = TStatus.active ∨
          t.status = TStatus.pendingCancellation) ∧
        ((t.status = TStatus.active ∨ t.status = TStatus.pendingCancellation) →
          t.timer = true ∨ t.pendingImmediate = true ∨ t.isRunning = true) := by
  have hreach : RegReach ⟨[⟨1, .interval, 90000, 0, .active, false, true, false,
      some 7, false, none, false⟩], 1⟩ :=
    ⟨[Label.register 0 SType.interval 90000 true true 7, Label.approve 1 0], by decide⟩
  exact ⟨_, hreach, C4_timer_invariant_amended _ hreach⟩

/-- C5: `confirmCancellation` for an id that is absent from the registry or
whose task is not in status `pending_cancellation` returns `false` and leaves
the registry — and so every remaining task — unchanged. -/
theorem C5_confirmCancellation_noop (s : RegState) (id : Nat)
    (h : ((lookupTask s id).all fun t => !(t.status == TStatus.pendingCancellation)) = true) :
    confirmCancellation s id = (s, false) := by
  unfold confirmCancellation
  split
  · rfl
  · next t hlk =>
    rw [hlk] at h
    have hne : ¬(t.status = TStatus.pendingCancellation) := by simpa using h
    rw [if_neg hne]

/-- Witness for C5: confirming cancellation of an absent task id on a
reachable registry holding one active task is a no-op. -/
theorem C5_confirmCancellation_witness :
    (((lookupTask ⟨[⟨1, .interval, 90000, 0, .active, false, true, false, some 7, false,
        none, false⟩], 1⟩ 2).all
      fun t => !(t.status == TStatus.pendingCancellation)) = true) ∧
    confirmCancellation ⟨[⟨1, .interval, 90000, 0, .active, false, true, false, some 7,
        false, none, false⟩], 1⟩ 2
      = (⟨[⟨1, .interval, 90000, 0, .active, false, true, false, some 7, false,
        none, false⟩], 1⟩, false) :=
  ⟨by decide, C5_confirmCancellation_noop _ 2 (by decide)⟩

/-! ## C6: a task that is never approved never reaches the Agent Runtime -/

/-- The task with this id (if present) is still awaiting approval. -/
def Unapproved (id : Nat) (s : RegState) : Prop :=
  ∀ t ∈ s.tasks, t.id = id → t.status = TStatus.pendingApproval

theorem lookup_eq_none_of {s : RegState} {id : Nat}
    (h : ∀ t ∈ s.tasks, t.id ≠ id) : lookupTask s id = none := by
  unfold lookupTask
  apply List.find?_eq_none.mpr
  intro u hu
  simpa using h u hu

theorem lookup_none_update {s : RegState} {id id' : Nat} {f : Task → Task}
    (hf : ∀ t, (f t).id = t.id) (h : lookupTask s id = none) :
    lookupTask (updateTask s id' f) id = none := by
  apply lookup_eq_none_of
  intro u hu
  obtain ⟨t, ht, heq⟩ := mem_update hu
  have hne := lookup_none_spec h t ht
  by_cases hid : t.id = id'
  · rw [heq, if_pos hid, hf t]; exact hne
  · rw [heq, if_neg hid]; exact hne

theorem lookup_none_delete {s : RegState} {id id' : Nat}
    (h : lookupTask s id = none) : lookupTask (deleteTask s id') id = none :=
  lookup_eq_none_of (fun u hu => lookup_none_spec h u (mem_delete hu))

/-- `Unapproved` survives an id-preserving update, provided the update keeps
the status `pending_approval` on any task carrying both the tracked id and the
updated id. -/
theorem unapproved_updateTask {s : RegState} {id id' : Nat} {f : Task → Task}
    (hf : ∀ t, (f t).id = t.id)
    (hun : Unapproved id s)
    (hpa : ∀ t ∈ s.tasks, t.id = id → t.id = id' →
      (f t).status = TStatus.pendingApproval) :
    Unapproved id (updateTask s id' f) := by
  intro u hu huid
  obtain ⟨t, ht, heq⟩ := mem_update hu
  by_cases hid : t.id = id'
  · rw [heq, if_pos hid] at huid ⊢
    exact hpa t ht (by rw [← hf t]; exact huid) hid
  · rw [heq, if_neg hid] at huid ⊢
    exact hun t ht huid

theorem unapproved_deleteTask {s : RegState} {id id' : Nat} (hun : Unapproved id s) :
    Unapproved id (deleteTask s id') :=
  fun u hu huid => hun u (mem_delete hu) huid

/-- One-step facts behind C6: as long as the task with the tracked id has not
been approved, any possible step keeps it `pending_approval` (or deleted), its
schedule timer can never fire (`fireTimer`/`fireImmediate` steps for this id
are impossible), its absence from the registry is permanent, and the approval
timeout firing deletes it. -/
theorem c6_step {s sA : RegState} {l : Label} {id : Nat} (hinv : RegInv s)
    (hun : Unapproved id s) (happ : applyLabel l s = some sA)
    (hnap : ∀ now, l ≠ Label.approve id now) :
    Unapproved id sA ∧
    l ≠ Label.fireTimer id ∧ l ≠ Label.fireImmediate id ∧
    ((lookupTask s id = none ∧ id ≤ s.counter) →
      (lookupTask sA id = none ∧ id ≤ sA.counter)) ∧
    (l = Label.approvalExpire id → (lookupTask sA id = none ∧ id ≤ sA.counter)) := by
  obtain ⟨h1, h2, h3⟩ := hinv
  cases l with
  | register chan stype sval valid postOk ts =>
    simp only [applyLabel, Option.some.injEq] at happ
    subst happ
    refine ⟨?_, by simp, by simp, ?_, by simp⟩
    · -- status of the tracked task is preserved through `schedule_task`
      unfold scheduleTask
      split
      · exact hun
      · split
        · exact hun
        · have hun1 : Unapproved id ⟨s.tasks ++ [freshTask (s.counter + 1) stype sval chan],
              s.counter + 1⟩ := by
            intro u hu huid
            rcases List.mem_append.mp hu with hold | hnew
            · exact hun u hold huid
            · rw [show u = freshTask (s.counter + 1) stype sval chan by simpa using hnew]
              rfl
          show Unapproved id (if postOk = true
            then (updateTask ⟨s.tasks ++ [freshTask (s.counter + 1) stype sval chan],
                s.counter + 1⟩ (s.counter + 1) (setApprovalHandle ts),
              SchedResult.created (s.counter + 1))
            else (deleteTask ⟨s.tasks ++ [freshTask (s.counter + 1) stype sval chan],
                s.counter + 1⟩ (s.counter + 1), SchedResult.postFailed)).1
          split
          · exact unapproved_updateTask (fun u => rfl) hun1
              (fun t ht hid _ => hun1 t ht hid)
          · exact unapproved_deleteTask hun1
    · -- an absent id stays absent: the new task has a strictly larger id
      intro ⟨hnone, hle⟩
      unfold scheduleTask
      split
      · exact ⟨hnone, hle⟩
      · split
        · exact ⟨hnone, hle⟩
        · have hnone1 : lookupTask ⟨s.tasks ++ [freshTask (s.counter + 1) stype sval chan],
              s.counter + 1⟩ id = none := by
            apply lookup_eq_none_of
            intro u hu
            rcases List.mem_append.mp hu with hold | hnew
            · exact lookup_none_spec hnone u hold
            · rw [show u = freshTask (s.counter + 1) stype sval chan by simpa using hnew]
              show s.counter + 1 ≠ id
              omega
          show lookupTask (if postOk = true
            then (updateTask ⟨s.tasks ++ [freshTask (s.counter + 1) stype sval chan],
                s.counter + 1⟩ (s.counter + 1) (setApprovalHandle ts),
              SchedResult.created (s.counter + 1))
            else (deleteTask ⟨s.tasks ++ [freshTask (s.counter + 1) stype sval chan],
                s.counter + 1⟩ (s.counter + 1), SchedResult.postFailed)).1 id = none ∧
            id ≤ (if postOk = true
            then (updateTask ⟨s.tasks ++ [freshTask (s.counter + 1) stype sval chan],
                s.counter + 1⟩ (s.counter + 1) (setApprovalHandle ts),
              SchedResult.created (s.counter + 1))
            else (deleteTask ⟨s.tasks ++ [freshTask (s.counter + 1) stype sval chan],
                s.counter + 1⟩ (s.counter + 1), SchedResult.postFailed)).1.counter
          split
          · exact ⟨lookup_none_update (fun u => rfl) hnone1, by show id ≤ s.counter + 1; omega⟩
          · exact ⟨lookup_none_delete hnone1, by show id ≤ s.counter + 1; omega⟩
  | approve id' now =>
    have hne : id' ≠ id := fun h => hnap now (by rw [h])
    simp only [applyLabel, Option.some.injEq] at happ
    subst happ
    unfold activateTask
    refine ⟨?_, by simp, by simp, ?_, by simp⟩
    · split
      · exact hun
      · split
        · exact unapproved_updateTask (fun u => startSchedule_id now _) hun
            (fun t ht hid hid' => absurd (hid'.symm.trans hid) hne)
        · exact hun
    · intro ⟨hnone, hle⟩
      split
      · exact ⟨hnone, hle⟩
      · split
        · exact ⟨lookup_none_update (fun u => startSchedule_id now _) hnone, hle⟩
        · exact ⟨hnone, hle⟩
  | rejectPending id' =>
    simp only [applyLabel, Option.some.injEq] at happ
    subst happ
    unfold rejectTask
    refine ⟨?_, by simp, by simp, ?_, by simp⟩
    · split
      · exact hun
      · split
        · exact unapproved_deleteTask hun
        · exact hun
    · intro ⟨hnone, hle⟩
      split
      · exact ⟨hnone, hle⟩
      · split
        · exact ⟨lookup_none_delete hnone, hle⟩
        · exact ⟨hnone, hle⟩
  | approvalExpire id' =>
    simp only [applyLabel] at happ
    split at happ
    · cases happ
    · next t hlk =>
      split at happ
      · rw [Option.some.injEq] at happ
        subst happ
        refine ⟨?_, by simp, by simp, ?_, ?_⟩
        · split
          · exact unapproved_deleteTask hun
          · exact unapproved_updateTask (fun u => rfl) hun (fun t' ht' hid _ => hun t' ht' hid)
        · intro ⟨hnone, hle⟩
          split
          · exact ⟨lookup_none_delete hnone, hle⟩
          · exact ⟨lookup_none_update (fun u => rfl) hnone, hle⟩
        · intro heq
          have hidq : id' = id := by injection heq
          subst hidq
          have hpa : t.status = TStatus.pendingApproval :=
            hun t (lookup_mem hlk).1 (lookup_mem hlk).2
          rw [if_pos hpa]
          refine ⟨lookup_delete_self s id', ?_⟩
          show id' ≤ s.counter
          have := h2 t (lookup_mem hlk).1
          rw [(lookup_mem hlk).2] at this
          exact this
      · cases happ
  | requestCancel id' postOk ts =>
    simp only [applyLabel, Option.some.injEq] at happ
    subst happ
    unfold cancelTask
    refine ⟨?_, by simp, by simp, ?_, by simp⟩
    · split
      · exact hun
      · next t hlk =>
        split
        · exact unapproved_deleteTask hun
        · next hpa =>
          split
          · exact hun
          · split
            · refine unapproved_updateTask (fun u => rfl) hun ?_
              intro t' ht' hid hid'
              have heqt := lookup_unique h3 hlk ht' hid'
              exact absurd (heqt ▸ hun t' ht' hid) hpa
            · exact hun
    · intro ⟨hnone, hle⟩
      split
      · exact ⟨hnone, hle⟩
      · split
        · exact ⟨lookup_none_delete hnone, hle⟩
        · split
          · exact ⟨hnone, hle⟩
          · split
            · exact ⟨lookup_none_update (fun u => rfl) hnone, hle⟩
            · exact ⟨hnone, hle⟩
  | confirmCancel id' =>
    simp only [applyLabel, Option.some.injEq] at happ
    subst happ
    unfold confirmCancellation
    refine ⟨?_, by simp, by simp, ?_, by simp⟩
    · split
      · exact hun
      · split
        · exact unapproved_deleteTask hun
        · exact hun
    · intro ⟨hnone, hle⟩
      split
      · exact ⟨hnone, hle⟩
      · split
        · exact ⟨lookup_none_delete hnone, hle⟩
        · exact ⟨hnone, hle⟩
  | rejectCancel id' =>
    simp only [applyLabel, Option.some.injEq] at happ
    subst happ
    unfold rejectCancellation
    refine ⟨?_, by simp, by simp, ?_, by simp⟩
    · split
      · exact hun
      · next t hlk =>
        split
        · next hpc =>
          refine unapproved_updateTask (fun u => rfl) hun ?_
          intro t' ht' hid hid'
          have heqt := lookup_unique h3 hlk ht' hid'
          have hpa' : t.status = TStatus.pendingApproval := by
            rw [← heqt]; exact hun t' ht' hid
          exact absurd (hpa'.symm.trans hpc) (by decide)
        · exact hun
    · intro ⟨hnone, hle⟩
      split
      · exact ⟨hnone, hle⟩
      · split
        · exact ⟨lookup_none_update (fun u => rfl) hnone, hle⟩
        · exact ⟨hnone, hle⟩
  | cancelExpire id' =>
    simp only [applyLabel] at happ
    split at happ
    · cases happ
    · next t hlk =>
      split at happ
      · rw [Option.some.injEq] at happ
        subst happ
        refine ⟨?_, by simp, by simp, ?_, by simp⟩
        · split
          · next hpc =>
            refine unapproved_updateTask (fun u => rfl) hun ?_
            intro t' ht' hid hid'
            have heqt := lookup_unique h3 hlk ht' hid'
            have hpa' : t.status = TStatus.pendingApproval := by
              rw [← heqt]; exact hun t' ht' hid
            exact absurd (hpa'.symm.trans hpc) (by decide)
          · exact unapproved_updateTask (fun u => rfl) hun (fun t' ht' hid _ => hun t' ht' hid)
        · intro ⟨hnone, hle⟩
          split
          · exact ⟨lookup_none_update (fun u => rfl) hnone, hle⟩
          · exact ⟨lookup_none_update (fun u => rfl) hnone, hle⟩
      · cases happ
  | selfCancel id' =>
    simp only [applyLabel, Option.some.injEq] at happ
    subst happ
    unfold cancelSelf
    refine ⟨?_, by simp, by simp, ?_, by simp⟩
    · split
      · exact hun
      · exact unapproved_deleteTask hun
    · intro ⟨hnone, hle⟩
      split
      · exact ⟨hnone, hle⟩
      · exact ⟨lookup_none_delete hnone, hle⟩
  | fireTimer id' =>
    simp only [applyLabel] at happ
    split at happ
    · cases happ
    · next t hlk =>
      split at happ
      · next hcond =>
        rw [Option.some.injEq] at happ
        subst happ
        have hne : id' ≠ id := by
          intro h
          subst h
          have hpa := hun t (lookup_mem hlk).1 (lookup_mem hlk).2
          have := ((h1 t (lookup_mem hlk).1).2.2.2.2.2.2.2 hpa).2.1
          rw [this] at hcond
          exact absurd hcond.1 (by simp)
        refine ⟨?_, ?_, by simp, ?_, by simp⟩
        · exact unapproved_updateTask (fun u => rfl) hun (fun t' ht' hid _ => hun t' ht' hid)
        · intro hcontra
          injection hcontra with h
          exact hne h
        · intro ⟨hnone, hle⟩
          exact ⟨lookup_none_update (fun u => rfl) hnone, hle⟩
      · cases happ
  | fireImmediate id' =>
    simp only [applyLabel] at happ
    split at happ
    · cases happ
    · next t hlk =>
      split at happ
      · next hcond =>
        rw [Option.some.injEq] at happ
        subst happ
        have hne : id' ≠ id := by
          intro h
          subst h
          have hpa := hun t (lookup_mem hlk).1 (lookup_mem hlk).2
          have := ((h1 t (lookup_mem hlk).1).2.2.2.2.2.2.2 hpa).2.2
          rw [this] at hcond
          exact absurd hcond.1 (by simp)
        refine ⟨?_, by simp, ?_, ?_, by simp⟩
        · exact unapproved_updateTask (fun u => rfl) hun (fun t' ht' hid _ => hun t' ht' hid)
        · intro hcontra
          injection hcontra with h
          exact hne h
        · intro ⟨hnone, hle⟩
          exact ⟨lookup_none_update (fun u => rfl) hnone, hle⟩
      · cases happ
  | finishRun id' =>
    simp only [applyLabel] at happ
    split at happ
    · rw [Option.some.injEq] at happ
      subst happ
      exact ⟨hun, by simp, by simp, fun h => h, by simp⟩
    · next t hlk =>
      split at happ
      · rw [Option.some.injEq] at happ
        subst happ
        refine ⟨?_, by simp, by simp, ?_, by simp⟩
        · split
          · exact unapproved_deleteTask (unapproved_updateTask (fun u => rfl) hun
              (fun t' ht' hid _ => hun t' ht' hid))
          · exact unapproved_updateTask (fun u => rfl) hun (fun t' ht' hid _ => hun t' ht' hid)
        · intro ⟨hnone, hle⟩
          split
          · exact ⟨lookup_none_delete (lookup_none_update (fun u => rfl) hnone), hle⟩
          · exact ⟨lookup_none_update (fun u => rfl) hnone, hle⟩
      · cases happ
  | shutdown =>
    simp only [applyLabel, Option.some.injEq] at happ
    subst happ
    refine ⟨?_, by simp, by simp, ?_, by simp⟩
    · intro u hu
      simp at hu
    · intro ⟨hnone, hle⟩
      exact ⟨lookup_eq_none_of (by intro u hu; simp at hu), hle⟩

/-- Trace induction behind C6: along any trace that never approves the tracked
id, the task stays unapproved, no timer fire for it is possible, absence from
the registry is permanent, and any approval-timeout firing leaves it absent. -/
theorem c6_aux (id : Nat) : ∀ (tr : List Label) (s0 s1 : RegState),
    RegInv s0 → Unapproved id s0 →
    runTrace s0 tr = some s1 →
    (∀ now, Label.approve id now ∉ tr) →
    Unapproved id s1 ∧
    Label.fireTimer id ∉ tr ∧ Label.fireImmediate id ∉ tr ∧
    ((lookupTask s0 id = none ∧ id ≤ s0.counter) →
      (lookupTask s1 id = none ∧ id ≤ s1.counter)) ∧
    (Label.approvalExpire id ∈ tr → (lookupTask s1 id = none ∧ id ≤ s1.counter)) := by
  intro tr
  induction tr with
  | nil =>
    intro s0 s1 hinv hun hrun hnap
    rw [runTrace, Option.some.injEq] at hrun
    subst hrun
    exact ⟨hun, by simp, by simp, fun h => h, by simp⟩
  | cons l tr ih =>
    intro s0 s1 hinv hun hrun hnap
    rw [runTrace] at hrun
    split at hrun
    · cases hrun
    · next sm happl =>
      have hlne : ∀ now, l ≠ Label.approve id now := by
        intro now h
        exact hnap now (by rw [← h]; exact List.mem_cons_self l tr)
      have htlne : ∀ now, Label.approve id now ∉ tr := by
        intro now hm
        exact hnap now (List.mem_cons_of_mem l hm)
      have hstep := c6_step hinv hun happl hlne
      have hIH := ih sm s1 (regInv_apply hinv happl) hstep.1 hrun htlne
      refine ⟨hIH.1, ?_, ?_, ?_, ?_⟩
      · intro hm
        rcases List.mem_cons.mp hm with heq | hmem
        · exact hstep.2.1 heq.symm
        · exact hIH.2.1 hmem
      · intro hm
        rcases List.mem_cons.mp hm with heq | hmem
        · exact hstep.2.2.1 heq.symm
        · exact hIH.2.2.1 hmem
      · intro h0
        exact hIH.2.2.2.1 (hstep.2.2.2.1 h0)
      · intro hm
        rcases List.mem_cons.mp hm with heq | hmem
        · exact hIH.2.2.2.1 (hstep.2.2.2.2 heq.symm)
        · exact hIH.2.2.2.2 hmem

/-- **C6.** A task that never receives an approval event can never fire: along
any trace from the initial registry that contains no `approve` event for the
task's id, no `fireTimer` or `fireImmediate` event for that id can occur (the
schedule timer is only armed by the approval path, so the Agent Runtime is
never invoked for the task), and if the 15-minute approval timeout fires for
it, the task is deleted and absent from the final registry. -/
theorem C6_unapproved_task_never_runs (tr : List Label) (s : RegState) (id : Nat)
    (hrun : runTrace regInit tr = some s)
    (hnap : ∀ now, Label.approve id now ∉ tr) :
    (Label.fireTimer id ∉ tr ∧ Label.fireImmediate id ∉ tr) ∧
    (Label.approvalExpire id ∈ tr → lookupTask s id = none) := by
  have h := c6_aux id tr regInit s regInv_init
    (fun t ht _ => absurd ht (by simp [regInit])) hrun hnap
  exact ⟨⟨h.2.1, h.2.2.1⟩, fun hm => (h.2.2.2.2 hm).1⟩

/-- Witness for C6: a concrete trace that registers a task (id 1), never
approves it, and lets the approval timeout fire — the task ends up deleted and
no fire event occurs in the trace. -/
theorem C6_unapproved_task_never_runs_witness :
    runTrace regInit
      [Label.register 0 SType.interval 90000 true true 7, Label.approvalExpire 1]
      = some ⟨[], 1⟩ ∧
    (Label.fireTimer 1 ∉
        [Label.register 0 SType.interval 90000 true true 7, Label.approvalExpire 1] ∧
      Label.fireImmediate 1 ∉
        [Label.register 0 SType.interval 90000 true true 7, Label.approvalExpire 1]) ∧
    lookupTask ⟨[], 1⟩ 1 = none := by
  refine ⟨by decide, ?_⟩
  have h := C6_unapproved_task_never_runs
    [Label.register 0 SType.interval 90000 true true 7, Label.approvalExpire 1]
    ⟨[], 1⟩ 1 (by decide) (by intro now; simp)
  exact ⟨h.1, h.2 (by simp)⟩

/-! ## C1 and C7: executeTask (cron.ts lines 220-339)

`executeTask` is modelled as a function of the task object `t`, the registry
`reg` at entry, the outcome of the Agent Runtime call (`query()` succeeding or
throwing — the catch block posts a failure notice), and the registry `regMid`
at the time the `finally` block runs (arbitrary: the registry may have been
mutated, e.g. the task deleted by `cancel_self`, while the execution was
awaited).  JavaScript shares one task object between the caller and the `tasks`
map, so `task.isRunning = false` in `finally` is an `updateTask` on whatever
registry is current; `,` `tasks.has`/`tasks.delete` act on that registry too.
The Boolean effect flags record which side effects the call performed. -/

inductive RunOutcome
  | success
  | failure
deriving DecidableEq

structure ExecEffects where
  acquiredLock : Bool
  invokedRuntime : Bool
  releasedLock : Bool
  notifiedFailure : Bool
deriving DecidableEq

structure ExecResult where
  effects : ExecEffects
  task : Task
  reg : RegState
deriving DecidableEq

/-- `task.isRunning = false` (cron.ts line 332). -/
def clearRunning (u : Task) : Task := { u with isRunning := false }

theorem clearRunning_id (u : Task) : (clearRunning u).id = u.id := rfl

/-- Embedding of `executeTask` at the granularity of its observable effects:
the `isRunning` guard (lines 222-225), lock acquire (line 231), the
`query()` call (line 253), the failure notification in `catch` (line 325), and
the `finally` block (lines 330-338): release the lock, clear `isRunning`, and
delete a `once` task that is still registered. -/
def executeTask (t : Task) (reg : RegState) (outcome : RunOutcome)
    (regMid : RegState) : ExecResult :=
  if t.isRunning then
    { effects := ⟨false, false, false, false⟩, task := t, reg := reg }
  else
    let regAfter := updateTask regMid t.id clearRunning
    let regFin := if t.scheduleType = SType.once ∧ hasTask regMid t.id = true
      then deleteTask regAfter t.id else regAfter
    { effects := ⟨true, true, true, outcome = RunOutcome.failure⟩,
      task := clearRunning t, reg := regFin }

/-- **C1.** If `executeTask` is invoked while the task's `isRunning` flag is
already true, the call returns immediately with no side effects at all: the
channel lock is not acquired, the Agent Runtime is not invoked, and both the
task object and the registry are returned unchanged — the fire is skipped, not
queued and not an error. -/
theorem C1_isRunning_skips_entirely (t : Task) (reg : RegState)
    (outcome : RunOutcome) (regMid : RegState) (h : t.isRunning = true) :
    executeTask t reg outcome regMid =
      { effects := ⟨false, false, false, false⟩, task := t, reg := reg } := by
  unfold executeTask
  rw [if_pos h]

/-- Witness for C1: a concrete already-running task is skipped unchanged. -/
theorem C1_isRunning_skips_witness :
    ({ freshTask 1 SType.interval 60000 0 with isRunning := true } : Task).isRunning = true ∧
    executeTask { freshTask 1 SType.interval 60000 0 with isRunning := true }
        ⟨[{ freshTask 1 SType.interval 60000 0 with isRunning := true }], 1⟩
        RunOutcome.success ⟨[], 1⟩
      = { effects := ⟨false, false, false, false⟩,
          task := { freshTask 1 SType.interval 60000 0 with isRunning := true },
          reg := ⟨[{ freshTask 1 SType.interval 60000 0 with isRunning := true }], 1⟩ } :=
  ⟨by decide,
    C1_isRunning_skips_entirely { freshTask 1 SType.interval 60000 0 with isRunning := true }
      ⟨[{ freshTask 1 SType.interval 60000 0 with isRunning := true }], 1⟩
      RunOutcome.success ⟨[], 1⟩ (by decide)⟩

/-- **C7.** Whenever `executeTask` proceeds past the `isRunning` guard, then on
every outcome — Agent Runtime success, failure, or the task having been
deleted from the registry mid-execution — the channel lock is released and the
task's `isRunning` flag is reset to false (both on the task object and on
whatever entry the registry still holds for that id); and if the task's
schedule type is `once`, it is no longer registered afterwards. -/
theorem C7_finally_cleanup (t : Task) (reg : RegState) (outcome : RunOutcome)
    (regMid : RegState) (h : t.isRunning = false) :
    (executeTask t reg outcome regMid).effects.releasedLock = true ∧
    (executeTask t reg outcome regMid).task.isRunning = false ∧
    (∀ u, lookupTask (executeTask t reg outcome regMid).reg t.id = some u →
      u.isRunning = false) ∧
    (t.scheduleType = SType.once →
      lookupTask (executeTask t reg outcome regMid).reg t.id = none) := by
  have hnr : ¬ t.isRunning = true := by rw [h]; exact Bool.false_ne_true
  unfold executeTask
  rw [if_neg hnr]
  refine ⟨rfl, rfl, ?_, ?_⟩
  · intro u hu0
    have hu : lookupTask (if t.scheduleType = SType.once ∧ hasTask regMid t.id = true
        then deleteTask (updateTask regMid t.id clearRunning) t.id
        else updateTask regMid t.id clearRunning) t.id = some u := hu0
    split at hu
    · rw [lookup_delete_self] at hu
      cases hu
    · rw [lookup_update clearRunning_id t.id] at hu
      cases hlk : lookupTask regMid t.id with
      | none => rw [hlk] at hu; cases hu
      | some v =>
        rw [hlk] at hu
        have hvid := (lookup_mem hlk).2
        have : (if v.id = t.id then clearRunning v else v) = u := by
          injection hu
        rw [if_pos hvid] at this
        rw [← this]
        rfl
  · intro honce
    show lookupTask (if t.scheduleType = SType.once ∧ hasTask regMid t.id = true
        then deleteTask (updateTask regMid t.id clearRunning) t.id
        else updateTask regMid t.id clearRunning) t.id = none
    split
    · exact lookup_delete_self _ _
    · next hcond =>
      have hhas : hasTask regMid t.id = false := by
        cases hh : hasTask regMid t.id with
        | false => rfl
        | true => exact absurd ⟨honce, hh⟩ hcond
      have hnone : lookupTask regMid t.id = none := by
        unfold hasTask at hhas
        exact Option.not_isSome_iff_eq_none.mp (by simp [hhas])
      rw [lookup_update clearRunning_id t.id, hnone]
      rfl

/-- Witness for C7: a `once` task whose run succeeds while it is still
registered — the lock is released, `isRunning` is cleared, and the task is
deleted from the registry. -/
theorem C7_finally_cleanup_witness :
    (freshTask 1 SType.once 0 0).isRunning = false ∧
    (executeTask (freshTask 1 SType.once 0 0) ⟨[freshTask 1 SType.once 0 0], 1⟩
        RunOutcome.success ⟨[freshTask 1 SType.once 0 0], 1⟩).effects.releasedLock = true ∧
    lookupTask (executeTask (freshTask 1 SType.once 0 0) ⟨[freshTask 1 SType.once 0 0], 1⟩
        RunOutcome.success ⟨[freshTask 1 SType.once 0 0], 1⟩).reg 1 = none := by
  have h := C7_finally_cleanup (freshTask 1 SType.once 0 0)
    ⟨[freshTask 1 SType.once 0 0], 1⟩ RunOutcome.success
    ⟨[freshTask 1 SType.once 0 0], 1⟩ (by decide)
  exact ⟨by decide, h.1, h.2.2.2 rfl⟩

/-! ## C8: per-channel capacity limit -/

/-- **C8.** When a channel already holds `MAX_TASKS_PER_CHANNEL` (= 10)
registered tasks, `schedule_task` with a valid schedule returns the capacity
error and leaves the registry completely unchanged: no task is created, the id
counter is not advanced, and no approval prompt or timeout is armed. -/
theorem C8_capacity_limit (s : RegState) (chan : Nat) (stype : SType) (sval : Int)
    (postOk : Bool) (ts : Nat)
    (hcap : MAX_TASKS_PER_CHANNEL ≤ countChannel s chan) :
    scheduleTask s chan stype sval true postOk ts = (s, SchedResult.capacityError) := by
  unfold scheduleTask
  rw [if_neg (fun h => Bool.noConfusion h), if_pos hcap]

/-- Witness for C8: a channel with exactly 10 registered tasks rejects an
11th registration and the registry is untouched. -/
theorem C8_capacity_limit_witness :
    MAX_TASKS_PER_CHANNEL ≤
      countChannel ⟨(List.range 10).map (fun i => freshTask (i + 1) SType.interval 60000 0),
        10⟩ 0 ∧
    scheduleTask ⟨(List.range 10).map (fun i => freshTask (i + 1) SType.interval 60000 0),
        10⟩ 0 SType.interval 60000 true true 7
      = (⟨(List.range 10).map (fun i => freshTask (i + 1) SType.interval 60000 0), 10⟩,
        SchedResult.capacityError) :=
  ⟨by decide, C8_capacity_limit _ 0 SType.interval 60000 true 7 (by decide)⟩

/-! ## C10: failed approval prompt rolls the registration back -/

/-- **C10.** Registration is atomic with the approval prompt: if posting the
Slack approval message fails, the just-created task is removed again and the
handler returns the post-failure error — the final registry differs from the
initial one only in the advanced id counter, so no task is left
`pending_approval` without an outstanding prompt and no approval timeout is
armed. -/
theorem C10_post_failure_rolls_back (s : RegState) (chan : Nat) (stype : SType)
    (sval : Int) (ts : Nat)
    (hcap : countChannel s chan < MAX_TASKS_PER_CHANNEL)
    (hfree : hasTask s (s.counter + 1) = false) :
    scheduleTask s chan stype sval true false ts
      = ({ s with counter := s.counter + 1 }, SchedResult.postFailed) := by
  have hnone : lookupTask s (s.counter + 1) = none := by
    unfold hasTask at hfree
    exact Option.not_isSome_iff_eq_none.mp (by simp [hfree])
  unfold scheduleTask
  rw [if_neg (fun h => Bool.noConfusion h), if_neg (Nat.not_le.mpr hcap)]
  show (deleteTask ⟨s.tasks ++ [freshTask (s.counter + 1) stype sval chan], s.counter + 1⟩
      (s.counter + 1), SchedResult.postFailed) = _
  unfold deleteTask
  have h1 : s.tasks.filter (fun t => !(t.id == s.counter + 1)) = s.tasks :=
    List.filter_eq_self.mpr (fun t ht => by simpa using lookup_none_spec hnone t ht)
  have h2 : [freshTask (s.counter + 1) stype sval chan].filter
      (fun t => !(t.id == s.counter + 1)) = [] := by
    simp [freshTask]
  show (RegState.mk ((s.tasks ++ [freshTask (s.counter + 1) stype sval chan]).filter
      (fun t => !(t.id == s.counter + 1))) (s.counter + 1), SchedResult.postFailed) = _
  rw [List.filter_append, h1, h2, List.append_nil]

/-- Witness for C10: on a registry holding one task, a registration whose
approval message fails to post leaves only that task, with the counter
advanced. -/
theorem C10_post_failure_witness :
    countChannel ⟨[freshTask 1 SType.interval 60000 0], 1⟩ 0 < MAX_TASKS_PER_CHANNEL ∧
    hasTask ⟨[freshTask 1 SType.interval 60000 0], 1⟩ 2 = false ∧
    scheduleTask ⟨[freshTask 1 SType.interval 60000 0], 1⟩ 0 SType.cron 0 true false 7
      = (⟨[freshTask 1 SType.interval 60000 0], 2⟩, SchedResult.postFailed) :=
  ⟨by decide, by decide,
    C10_post_failure_rolls_back ⟨[freshTask 1 SType.interval 60000 0], 1⟩ 0 SType.cron 0 7
      (by decide) (by decide)⟩

end Claw
